import Mathlib

/-!
Verification of the candidate-reconciliation engine of the scam-detector
repository.

The repository contains two engine variants:
* `src/services/gemini.ts` (strict whitelist / blocklist engine), embedded
  below in namespace `Gemini`;
* `src/unnamed/part_002` (deep-price-parser scoring engine, historically also
  named `services/gemini.ts`), embedded in namespace `Part002`.

JavaScript numbers are modelled as exact rationals (`ℚ`); the scores and
prices handled by the engine are small and the code only adds, compares and
rounds them.  JavaScript objects are modelled as references into an explicit
store so that aliasing and cyclic structures (relevant to the recursive price
extractor and its visited set) are representable.
-/

/-! ## Character and list helpers shared by the regex models -/

/-- Whitespace class of JavaScript regexes (`\s`) and `String.prototype.trim`. -/
def isSpaceJS (c : Char) : Bool := c.isWhitespace

/-- Word character class of JavaScript regexes (`\w` = `[A-Za-z0-9_]`). -/
def isWordChar (c : Char) : Bool := c.isAlpha || c.isDigit || c == '_'

/-- Drop a run of whitespace (the greedy `\s*`). -/
def dropSpaces (l : List Char) : List Char := l.dropWhile isSpaceJS

/-- JavaScript `String.prototype.trim` on a character list. -/
def trimJS (l : List Char) : List Char :=
  ((l.dropWhile isSpaceJS).reverse.dropWhile isSpaceJS).reverse

/-- Case-insensitive literal matcher: consume `pat` (given in lower case) from
the head of `l`, returning the rest on success. -/
def matchLit : List Char → List Char → Option (List Char)
  | s, [] => some s
  | [], _ :: _ => none
  | c :: s, d :: p => if c.toLower == d.toLower then matchLit s p else none

/-- Case-sensitive literal matcher. -/
def matchLitCS : List Char → List Char → Option (List Char)
  | s, [] => some s
  | [], _ :: _ => none
  | c :: s, d :: p => if c == d then matchLitCS s p else none

/-- Does `p` occur at the head of `l` (case sensitive)? -/
def headMatches (p l : List Char) : Bool := (matchLitCS l p).isSome

/-- Substring containment, the model of `String.prototype.includes`. -/
def containsSeq (hay needle : List Char) : Bool :=
  match hay with
  | [] => needle.isEmpty
  | _ :: t => headMatches needle hay || containsSeq t needle

/-- `hay.includes(needle)` for strings. -/
def containsStr (hay needle : String) : Bool := containsSeq hay.toList needle.toList

/-- JavaScript `String.prototype.toLowerCase` (ASCII-faithful). -/
def jsToLower (s : String) : String := s.map Char.toLower

/-- Scan every start position of `l` (leftmost first) with `p`; model of an
unanchored `String.prototype.match` / `RegExp.prototype.test` search. -/
def findLeftmost {α : Type} (p : List Char → Option α) : List Char → Option α
  | [] => p []
  | c :: t =>
    match p (c :: t) with
    | some x => some x
    | none => findLeftmost p t

/-- Does `p` hold at some start position of `l`? -/
def anyPos (p : List Char → Bool) : List Char → Bool
  | [] => p []
  | c :: t => p (c :: t) || anyPos p t

/-- Match a sequence of (lower-case) words separated by `\s+`, returning the
rest after the final word.  Greedily consuming the whitespace run is
equivalent to the regex `\s+` here because the following word starts with a
non-space character. -/
def matchPhraseR : List (List Char) → List Char → Option (List Char)
  | [], l => some l
  | [w], l => matchLit l w
  | w :: ws, l =>
    match matchLit l w with
    | some r =>
      let r' := r.dropWhile isSpaceJS
      if r'.length < r.length then matchPhraseR ws r' else none
    | none => none

/-- Boolean form of `matchPhraseR`. -/
def matchPhrase (ws : List (List Char)) (l : List Char) : Bool := (matchPhraseR ws l).isSome

/-- Numeric value of a digit string. -/
def digitsToNat (l : List Char) : ℕ := l.foldl (fun a c => 10 * a + (c.toNat - 48)) 0

/-- Strip thousands separators, the model of `.replace(/,/g, "")`. -/
def stripCommas (l : List Char) : List Char := l.filter (fun c => c != ',')

/-- `parseFloat` on a captured price numeral of shape `digits(,digits)*(.dd)?`
(after comma stripping: `digits(.digits)?`). -/
def parseCapture (l : List Char) : ℚ :=
  let l := stripCommas l
  let intPart := l.takeWhile (fun c => c != '.')
  let rest := l.dropWhile (fun c => c != '.')
  match rest with
  | '.' :: frac => (digitsToNat intPart : ℚ) + (digitsToNat frac : ℚ) / (10 : ℚ) ^ frac.length
  | _ => (digitsToNat intPart : ℚ)

/-- `parseInt(s, 10)` on a captured price numeral: stops at the decimal
point, so it keeps the integer part only. -/
def parseIntCapture (l : List Char) : ℚ :=
  (digitsToNat ((stripCommas l).takeWhile Char.isDigit) : ℚ)

/-- JavaScript `Math.round`: round half toward positive infinity
(`Rat.floor` is the floor function on `ℚ`). -/
def jsRound (q : ℚ) : ℚ := (((q + 1 / 2).floor : ℤ) : ℚ)

/-! ## The JavaScript value model -/

/-- A JavaScript value: primitives, or a reference into the object store.
`null` doubles as `undefined` where only truthiness matters; places where the
code distinguishes presence of a field use `Option JVal` instead. -/
inductive JVal where
  | null
  | bool (b : Bool)
  | num (q : ℚ)
  | str (s : String)
  | ref (o : ℕ)
deriving Repr, DecidableEq

/-- Heap data of one object: a plain object with ordered own fields, or an
array.  `for…in` enumeration order is the field-list order. -/
inductive JObjData where
  | obj (fields : List (String × JVal))
  | arr (elems : List JVal)
deriving Repr, DecidableEq

/-- The object store (heap); object identity is the numeric id. -/
abbrev Store := List (ℕ × JObjData)

def lookupStore (st : Store) (o : ℕ) : Option JObjData :=
  (st.find? (fun p => p.1 == o)).map Prod.snd

def storeDom (st : Store) : Finset ℕ := st.foldr (fun p s => insert p.1 s) ∅

/-- Own enumerable keys with values.  Array elements enumerate under their
index strings, as `for…in` does. -/
def jfields : JObjData → List (String × JVal)
  | .obj fields => fields
  | .arr elems => elems.enum.map (fun p => (toString p.1, p.2))

def lookupField (fields : List (String × JVal)) (k : String) : Option JVal :=
  (fields.find? (fun p => p.1 == k)).map Prod.snd

/-- Property access `v[k]`; `none` models `undefined`. -/
def getField (st : Store) (v : JVal) (k : String) : Option JVal :=
  match v with
  | .ref o => (lookupStore st o).bind (fun d => lookupField (jfields d) k)
  | _ => none

/-- JavaScript truthiness. -/
def jsTruthy : JVal → Bool
  | .null => false
  | .bool b => b
  | .num q => decide (q ≠ 0)
  | .str s => s ≠ ""
  | .ref _ => true

/-- `a || b` on a possibly-undefined left operand with a value fallback. -/
def jsOrV (a : Option JVal) (b : JVal) : JVal :=
  match a with
  | some v => if jsTruthy v then v else b
  | none => b

/-- `a || b` on possibly-undefined operands. -/
def jsOrO (a b : Option JVal) : Option JVal :=
  match a with
  | some v => if jsTruthy v then some v else b
  | none => b

def jsTruthyO : Option JVal → Bool
  | some v => jsTruthy v
  | none => false

/-- Decimal rendering of a nonnegative rational whose denominator divides a
power of ten, as JavaScript prints such doubles (shortest decimal, no
trailing zeros).  Other denominators cannot arise from the price parser; they
fall back to a fraction rendering. -/
def numToStringAbs (q : ℚ) : String :=
  if q.den = 1 then toString q.num
  else
    match (List.range 17).find? (fun k => (10 : ℕ) ^ (k + 1) % q.den == 0) with
    | some k =>
      let m := k + 1
      let total := q.num * (10 : ℤ) ^ m / (q.den : ℤ)
      let ds := (toString total).toList
      let ds := if ds.length ≤ m then List.replicate (m + 1 - ds.length) '0' ++ ds else ds
      let i := ds.length - m
      String.mk (ds.take i ++ '.' :: ds.drop i)
    | none => toString q.num ++ "/" ++ toString q.den

/-- JavaScript `Number.prototype.toString` for the rationals in our model. -/
def numToString (q : ℚ) : String :=
  if q < 0 then "-" ++ numToStringAbs (-q) else numToStringAbs q

/-- JavaScript `toString` coercion of a value.  Plain objects print
`[object Object]`; arrays join their (shallowly stringified) elements.  The
deeper corner cases of `Array.prototype.toString` are irrelevant to the
claims. -/
def jsToStringV (st : Store) (v : JVal) : String :=
  match v with
  | .null => "null"
  | .bool b => if b then "true" else "false"
  | .num q => numToString q
  | .str s => s
  | .ref o =>
    match lookupStore st o with
    | some (.arr elems) =>
      String.intercalate "," (elems.map (fun e =>
        match e with
        | .null => ""
        | .bool b => if b then "true" else "false"
        | .num q => numToString q
        | .str s => s
        | .ref _ => "[object Object]"))
    | _ => "[object Object]"

/-- String-to-number coercion (`Number(s)`), used by the stock detector's
`price > 0` comparison: trimmed empty string is `0`; otherwise an optional
sign with a decimal literal (optional fraction and exponent), or an unsigned
hex literal; anything else is `NaN`, modelled as `none` (as is `Infinity`). -/
def jsStringToNumber (s : String) : Option ℚ :=
  let l := trimJS s.toList
  match l with
  | [] => some 0
  | _ =>
    let signed : ℤ × List Char :=
      match l with
      | '+' :: t => (1, t)
      | '-' :: t => (-1, t)
      | _ => (1, l)
    let sgn := signed.1
    let body := signed.2
    match body with
    | '0' :: 'x' :: h :: t =>
      if sgn = 1 ∧ (h :: t).all (fun c => c.isDigit || ('a' ≤ c.toLower ∧ c.toLower ≤ 'f')) then
        some ((h :: t).foldl (fun a c =>
          16 * a + (if c.isDigit then (c.toNat - 48 : ℤ) else (c.toLower.toNat - 87 : ℤ))) 0 : ℚ)
      else none
    | _ =>
      let ip := body.takeWhile Char.isDigit
      let r1 := body.dropWhile Char.isDigit
      let fracState : Option (List Char × List Char) :=
        match r1 with
        | '.' :: t => some (t.takeWhile Char.isDigit, t.dropWhile Char.isDigit)
        | _ => some ([], r1)
      match fracState with
      | none => none
      | some (fp, r2) =>
        if ip.isEmpty ∧ fp.isEmpty then none
        else
          let mant : ℚ := (digitsToNat ip : ℚ) + (digitsToNat fp : ℚ) / (10 : ℚ) ^ fp.length
          match r2 with
          | [] => some ((sgn : ℚ) * mant)
          | e :: t =>
            if e.toLower == 'e' then
              let esigned : ℤ × List Char :=
                match t with
                | '+' :: t' => (1, t')
                | '-' :: t' => (-1, t')
                | _ => (1, t)
              let ed := esigned.2.takeWhile Char.isDigit
              if ed.isEmpty ∨ ¬ esigned.2.dropWhile Char.isDigit = [] then none
              else some ((sgn : ℚ) * mant * (10 : ℚ) ^ (esigned.1 * (digitsToNat ed : ℤ)))
            else none

/-- Numeric coercion for the abstract comparison `v > 0`. -/
def jsToNumber : JVal → Option ℚ
  | .null => some 0
  | .bool b => some (if b then 1 else 0)
  | .num q => some q
  | .str s => jsStringToNumber s
  | .ref _ => none

/-- JavaScript `v > 0` (`NaN` comparisons are false). -/
def jsGtZero (v : JVal) : Bool :=
  match jsToNumber v with
  | some q => decide (0 < q)
  | none => false

def jsGtZeroO : Option JVal → Bool
  | some v => jsGtZero v
  | none => false

/-- Field read coerced through `(item.k || dflt)` and `toString`. -/
def strFieldOr (st : Store) (item : JVal) (k : String) (dflt : String) : String :=
  jsToStringV st (jsOrV (getField st item k) (.str dflt))

/-! ## `src/unnamed/part_002` — the deep-parser engine -/

namespace Part002

structure MinMax where
  min : ℚ
  max : ℚ
deriving Repr, DecidableEq

/-- Dash class `[-–]` of the range regex. -/
def dashP2 (c : Char) : Bool := c == '-' || c == '–'

/-- Greedy star `(?:,?\d+)*` after a maximal initial digit run: since the
initial `\d+` is maximal, each iteration must start with a comma followed by
digits.  Consumes at least two characters per step, hence the length fuel. -/
def chunksGo : ℕ → List Char → List Char × List Char
  | 0, l => ([], l)
  | fuel + 1, l =>
    match l with
    | c1 :: c2 :: rest =>
      if c1 == ',' && c2.isDigit then
        let ds := (c2 :: rest).takeWhile Char.isDigit
        let r := (c2 :: rest).dropWhile Char.isDigit
        let m := chunksGo fuel r
        (c1 :: (ds ++ m.1), m.2)
      else ([], c1 :: c2 :: rest)
    | _ => ([], l)

def chunks (l : List Char) : List Char × List Char := chunksGo l.length l

/-- Greedy deterministic matcher for the capture group
`\d+(?:,?\d+)*(?:\.\d{2})?`.  The greedy compilation is extensionally equal
to the backtracking regex: whenever an optional/star piece is consumed, the
following mandatory `[-–]` (or end of pattern) fails on the same character
with or without that piece, so backtracking never turns failure into
success. -/
def matchNum (l : List Char) : Option (List Char × List Char) :=
  let ds := l.takeWhile Char.isDigit
  let r := l.dropWhile Char.isDigit
  if ds.isEmpty then none
  else
    let cs := chunks r
    match cs.2 with
    | c0 :: a :: b :: r'' =>
      if c0 == '.' && a.isDigit && b.isDigit then some (ds ++ cs.1 ++ [c0, a, b], r'')
      else some (ds ++ cs.1, cs.2)
    | _ => some (ds ++ cs.1, cs.2)

/-- Optional currency marker `(?:₹|Rs\.?|INR)?` with the `/i` flag (range
regex of `cleanAndParsePriceString`). -/
def markerP2 (l : List Char) : List Char :=
  match matchLit l ['₹'] with
  | some r => r
  | none =>
    match matchLit l ['r', 's'] with
    | some r =>
      match r with
      | c :: r' => if c == '.' then r' else c :: r'
      | [] => []
    | none =>
      match matchLit l ['i', 'n', 'r'] with
      | some r => r
      | none => l

/-- Optional currency marker `(?:₹|Rs\.?|INR)?` without the `/i` flag (the
single-price regex of `cleanAndParsePriceString` is case sensitive). -/
def markerP2CS (l : List Char) : List Char :=
  match matchLitCS l ['₹'] with
  | some r => r
  | none =>
    match matchLitCS l ['R', 's'] with
    | some r =>
      match r with
      | c :: r' => if c == '.' then r' else c :: r'
      | [] => []
    | none =>
      match matchLitCS l ['I', 'N', 'R'] with
      | some r => r
      | none => l

/-- One anchored attempt of the range regex
`(?:₹|Rs\.?|INR)?\s*(\d+(?:,?\d+)*(?:\.\d{2})?)\s*[-–]\s*(?:₹|Rs\.?|INR)?\s*(\d+(?:,?\d+)*(?:\.\d{2})?)/i`,
returning the two captures. -/
def rangeAtP2 (l : List Char) : Option (List Char × List Char) :=
  match matchNum (dropSpaces (markerP2 l)) with
  | none => none
  | some (c1, r1) =>
    match dropSpaces r1 with
    | d :: r2 =>
      if dashP2 d then
        match matchNum (dropSpaces (markerP2 (dropSpaces r2))) with
        | none => none
        | some (c2, _) => some (c1, c2)
      else none
    | [] => none

/-- One anchored attempt of the single-price regex
`(?:₹|Rs\.?|INR)?\s*(\d+(?:,?\d+)*(?:\.\d{2})?)`. -/
def singleAtP2 (l : List Char) : Option (List Char) :=
  (matchNum (dropSpaces (markerP2CS l))).map Prod.fst

/-- Test of `/out\s+of\s+stock|unavailable|discontinued/i`. -/
def oosTestP2 (l : List Char) : Bool :=
  anyPos (fun s =>
    matchPhrase [['o','u','t'], ['o','f'], ['s','t','o','c','k']] s ||
    matchPhrase [['u','n','a','v','a','i','l','a','b','l','e']] s ||
    matchPhrase [['d','i','s','c','o','n','t','i','n','u','e','d']] s) l

/-- Shared fall-through of `cleanAndParsePriceString`: the single-price match
and the final zero result. -/
def singleFallbackP2 (l : List Char) : MinMax :=
  match findLeftmost singleAtP2 l with
  | some c =>
    let p := parseCapture c
    if 0 < p then ⟨jsRound p, jsRound p⟩ else ⟨0, 0⟩
  | none => ⟨0, 0⟩

/-- `cleanAndParsePriceString` of `src/unnamed/part_002` (lines 418-459):
trim, reject out-of-stock phrasing, try the range regex (only accepted when
the parsed minimum is positive), then the single-price regex. -/
def cleanAndParsePriceString (s : String) : MinMax :=
  let l := trimJS s.toList
  if oosTestP2 l then ⟨0, 0⟩
  else
    match findLeftmost rangeAtP2 l with
    | some (c1, c2) =>
      let mn := parseCapture c1
      let mx := parseCapture c2
      if 0 < mn then ⟨jsRound mn, jsRound mx⟩
      else singleFallbackP2 l
    | none => singleFallbackP2 l

end Part002

namespace Part002

/-- Case-insensitive containment test, the model of `/pat/i.test(s)` for a
plain-text pattern (pattern given in lower case). -/
def containsCI (hay : String) (needle : String) : Bool :=
  containsStr (jsToLower hay) needle

/-- `detectCurrency` of `src/unnamed/part_002` (lines 184-202).  The `Rs\.?`
alternative of the INR test reduces to containment of `rs`.  The source is
typed to receive a string; a numeric argument would raise a `TypeError` at
its `toLowerCase` call, so the model takes the string. -/
def detectCurrency (priceStr : String) : String :=
  if priceStr == "" then "UNKNOWN"
  else if containsStr priceStr "₹" || containsCI priceStr "rs" ||
      containsCI priceStr "inr" || containsCI priceStr "rupee" then "INR"
  else if containsStr priceStr "$" || containsCI priceStr "usd" ||
      containsCI priceStr "dollar" then "USD"
  else if containsStr priceStr "€" || containsCI priceStr "eur" ||
      containsCI priceStr "euro" then "EUR"
  else if containsStr priceStr "£" || containsCI priceStr "gbp" ||
      containsCI priceStr "pound" then "GBP"
  else "UNKNOWN"

/-- The price string a record presents, `(item.price || "").toString()`. -/
def priceStrOf (st : Store) (item : JVal) : String :=
  jsToStringV st (jsOrV (getField st item "price") (.str ""))

/-- The lower-cased link, `(item.link || "").toLowerCase()`. -/
def linkLowerOf (st : Store) (item : JVal) : String :=
  jsToLower (jsToStringV st (jsOrV (getField st item "link") (.str "")))

def indianDomains : List String :=
  [".in/", "amazon.in", "flipkart.com", "flipkart.in", "myntra.com", "ajio.com",
   "croma.com", "reliance.com", "meesho.com", "shopsy.in"]

def nonIndianDomains : List String :=
  [".sk/", ".cz/", ".eu", ".de", ".fr", ".uk", ".us", ".com.br", "ebay."]

/-- `isIndianResult` of `src/unnamed/part_002` (lines 213-274): reject foreign
currencies first, then reject foreign domains, then accept Indian domains or
an INR price, otherwise reject.  (The source also computes a lower-cased
title but never uses it.) -/
def isIndianResult (st : Store) (item : JVal) : Bool :=
  if !jsTruthy item then false
  else
    let link := linkLowerOf st item
    let currency := detectCurrency (priceStrOf st item)
    if currency == "USD" || currency == "EUR" || currency == "GBP" then false
    else
      let hasIndianDomain := indianDomains.any (fun d => containsStr link d)
      let hasNonIndianDomain := nonIndianDomains.any (fun d => containsStr link d)
      if hasNonIndianDomain then false
      else if hasIndianDomain then true
      else if currency == "INR" then true
      else false

/-! ### The deep price extractor (`extractPriceDeep`, lines 284-408)

The JavaScript function threads a mutable `visited` identity set through its
recursion; the model threads it explicitly.  The recursion is bounded by a
fuel parameter; `claim_C9` below shows any fuel of at least one plus the
number of unvisited store objects gives the same (stable) result, which is
the termination argument the visited set provides in the source. -/

structure PriceResult where
  min : ℚ
  max : ℚ
  original : String
  confidence : ℚ
deriving Repr, DecidableEq

/-- The zero-initialised `result` record. -/
def zeroPrice : PriceResult := ⟨0, 0, "", 0⟩

/-- Field names checked in priority order. -/
def fieldNames : List String :=
  ["extracted_price", "price", "detected_price", "detected_values", "amount",
   "value", "priceAmount", "pricing", "cost", "rate"]

/-- Keys skipped by the blind recursive scan. -/
def skipKeys : List String :=
  ["id", "title", "link", "source", "image", "rating", "reviews", "url",
   "snippet", "description"]

/-- Priority 1: the first direct numeric field among `fieldNames` that is
positive (`field in item && typeof item[field] === "number" && item[field] > 0`). -/
def priority1 (fields : List (String × JVal)) : Option PriceResult :=
  fieldNames.findSome? (fun f =>
    match lookupField fields f with
    | some (.num q) => if 0 < q then some ⟨jsRound q, jsRound q, numToString q, 95⟩ else none
    | _ => none)

/-- Priority 2: the first string field among `fieldNames` whose cleaned parse
has a positive minimum. -/
def priority2 (fields : List (String × JVal)) : Option PriceResult :=
  fieldNames.findSome? (fun f =>
    match lookupField fields f with
    | some (.str s) =>
      let c := cleanAndParsePriceString s
      if 0 < c.min then some ⟨c.min, c.max, s, 85⟩ else none
    | _ => none)

/-- Priority 3 guard: `item.detected_values && Array.isArray(item.detected_values)`. -/
def detectedValues (st : Store) (fields : List (String × JVal)) : Option (List JVal) :=
  match lookupField fields "detected_values" with
  | some (.ref o) =>
    match lookupStore st o with
    | some (.arr elems) => some elems
    | _ => none
  | _ => none

/-- Priority 3 loop over `detected_values`: objects are recursed into
(confidence forced to 80), strings are parsed (confidence 80), primitives are
skipped; the visited set of a recursive call is threaded to its successors
exactly as the shared mutable set is in the source. -/
def p3loop (rec : JVal → Finset ℕ → PriceResult × Finset ℕ) :
    List JVal → Finset ℕ → Option PriceResult × Finset ℕ
  | [], vis => (none, vis)
  | v :: rest, vis =>
    match v with
    | .ref o =>
      let r := rec (.ref o) vis
      if 0 < r.1.min then (some ⟨r.1.min, r.1.max, r.1.original, 80⟩, r.2)
      else p3loop rec rest r.2
    | .str s =>
      let c := cleanAndParsePriceString s
      if 0 < c.min then (some ⟨c.min, c.max, s, 80⟩, vis)
      else p3loop rec rest vis
    | _ => p3loop rec rest vis

/-- Priority 4 `for…in` loop: skip values already in the visited set and the
known non-price keys; recurse into objects (`typeof` of `null` is also
`"object"`, and the recursive call returns the zero result on it) with a
confidence penalty of 5, and parse short strings with confidence 70. -/
def p4loop (rec : JVal → Finset ℕ → PriceResult × Finset ℕ) :
    List (String × JVal) → Finset ℕ → Option PriceResult × Finset ℕ
  | [], vis => (none, vis)
  | (k, v) :: rest, vis =>
    if (match v with | .ref o => decide (o ∈ vis) | _ => false) then p4loop rec rest vis
    else if skipKeys.contains (jsToLower k) then p4loop rec rest vis
    else
      match v with
      | .ref o =>
        let r := rec (.ref o) vis
        if 0 < r.1.min then (some ⟨r.1.min, r.1.max, r.1.original, max 0 (r.1.confidence - 5)⟩, r.2)
        else p4loop rec rest r.2
      | .null =>
        let r := rec .null vis
        if 0 < r.1.min then (some ⟨r.1.min, r.1.max, r.1.original, max 0 (r.1.confidence - 5)⟩, r.2)
        else p4loop rec rest r.2
      | .str s =>
        if s.length < 100 then
          let c := cleanAndParsePriceString s
          if 0 < c.min then (some ⟨c.min, c.max, s, 70⟩, vis)
          else p4loop rec rest vis
        else p4loop rec rest vis
      | _ => p4loop rec rest vis

/-- Fuel-indexed `extractPriceDeep`.  A non-object argument, a dangling
reference, or an already-visited object yields the zero result; otherwise the
object is marked visited and the four priorities run in order. -/
def extractPriceDeepF (st : Store) : ℕ → JVal → Finset ℕ → PriceResult × Finset ℕ
  | 0, _, vis => (zeroPrice, vis)
  | fuel + 1, v, vis =>
    match v with
    | .ref o =>
      match lookupStore st o with
      | none => (zeroPrice, vis)
      | some data =>
        if o ∈ vis then (zeroPrice, vis)
        else
          let vis' := insert o vis
          let fields := jfields data
          match priority1 fields with
          | some pr => (pr, vis')
          | none =>
            match priority2 fields with
            | some pr => (pr, vis')
            | none =>
              let s3 :=
                match detectedValues st fields with
                | some elems => p3loop (extractPriceDeepF st fuel) elems vis'
                | none => (none, vis')
              match s3.1 with
              | some pr => (pr, s3.2)
              | none =>
                let s4 := p4loop (extractPriceDeepF st fuel) fields s3.2
                match s4.1 with
                | some pr => (pr, s4.2)
                | none => (zeroPrice, s4.2)
    | _ => (zeroPrice, vis)

/-- Fuel sufficient to explore every object not yet visited. -/
def fuelBound (st : Store) (vis : Finset ℕ) : ℕ := (storeDom st \ vis).card + 1

/-- `extractPriceDeep(item)` with the default fresh visited set. -/
def extractPriceDeep (st : Store) (item : JVal) : PriceResult :=
  (extractPriceDeepF st (fuelBound st ∅) item ∅).1

end Part002

namespace Part002

/-- Explicit stock fields checked by `isProductInStock`. -/
def stockFields : List String :=
  ["availability", "in_stock", "stock_status", "status", "inStock", "stockStatus"]

/-- Test of `/in\s+stock|available|in\s+hand|ready/` on a lower-cased string. -/
def inStockRe (l : List Char) : Bool :=
  anyPos (fun s => matchPhrase [['i','n'], ['s','t','o','c','k']] s) l ||
  containsSeq l ['a','v','a','i','l','a','b','l','e'] ||
  anyPos (fun s => matchPhrase [['i','n'], ['h','a','n','d']] s) l ||
  containsSeq l ['r','e','a','d','y']

/-- Test of `/out\s+of\s+stock|unavailable|discontinued|out|sold\s+out/` on a
lower-cased string (note the bare `out` alternative present in the source). -/
def outStockRe (l : List Char) : Bool :=
  anyPos (fun s => matchPhrase [['o','u','t'], ['o','f'], ['s','t','o','c','k']] s) l ||
  containsSeq l ['u','n','a','v','a','i','l','a','b','l','e'] ||
  containsSeq l ['d','i','s','c','o','n','t','i','n','u','e','d'] ||
  containsSeq l ['o','u','t'] ||
  anyPos (fun s => matchPhrase [['s','o','l','d'], ['o','u','t']] s) l

/-- The explicit-field loop of `isProductInStock`: the first field present
with a boolean value or a string value matching a stock vocabulary decides;
other present fields only set `foundExplicitStatus`. -/
def stockFieldScan (fields : List (String × JVal)) :
    List String → Bool → Option Bool × Bool
  | [], found => (none, found)
  | f :: rest, found =>
    match lookupField fields f with
    | none => stockFieldScan fields rest found
    | some v =>
      match v with
      | .bool b => (some b, true)
      | .str s =>
        let lower := (jsToLower s).toList
        if inStockRe lower then (some true, true)
        else if outStockRe lower then (some false, true)
        else stockFieldScan fields rest true
      | _ => stockFieldScan fields rest true

/-- Word-boundary test of `/\b(out\s+of\s+stock|sold\s+out|unavailable)\b/`:
a match must start after a non-word character (or at the start) and end
before a non-word character (or at the end). -/
def oosBoundaryAtEnd (r : List Char) : Bool :=
  match r with
  | [] => true
  | c :: _ => !isWordChar c

def oosPhraseAt (s : List Char) : Bool :=
  (match matchPhraseR [['o','u','t'], ['o','f'], ['s','t','o','c','k']] s with
   | some r => oosBoundaryAtEnd r
   | none => false) ||
  (match matchPhraseR [['s','o','l','d'], ['o','u','t']] s with
   | some r => oosBoundaryAtEnd r
   | none => false) ||
  (match matchPhraseR [['u','n','a','v','a','i','l','a','b','l','e']] s with
   | some r => oosBoundaryAtEnd r
   | none => false)

def oosBoundaryScan : Option Char → List Char → Bool
  | prev, [] =>
    (match prev with | none => true | some c => !isWordChar c) && oosPhraseAt []
  | prev, c :: t =>
    ((match prev with | none => true | some p => !isWordChar p) && oosPhraseAt (c :: t)) ||
    oosBoundaryScan (some c) t

def oosBoundaryTest (l : List Char) : Bool := oosBoundaryScan none l

/-- The text `` `${item.title || ""} ${item.price || ""} ${item.snippet || ""}` ``
lower-cased. -/
def fullTextOf (st : Store) (item : JVal) : List Char :=
  (jsToLower (jsToStringV st (jsOrV (getField st item "title") (.str "")) ++ " " ++
    jsToStringV st (jsOrV (getField st item "price") (.str "")) ++ " " ++
    jsToStringV st (jsOrV (getField st item "snippet") (.str "")))).toList

/-- `isProductInStock` of `src/unnamed/part_002` (lines 467-516): explicit
fields first, then strong negative text indicators, then a positive extracted
price implies in stock, and with no explicit status at all the lenient
default is `true`. -/
def isProductInStock (st : Store) (item : JVal) : Bool :=
  if !jsTruthy item then false
  else
    let fields :=
      match item with
      | .ref o => ((lookupStore st o).map jfields).getD []
      | _ => []
    match stockFieldScan fields stockFields false with
    | (some b, _) => b
    | (none, found) =>
      if oosBoundaryTest (fullTextOf st item) then false
      else if 0 < (extractPriceDeep st item).min then true
      else !found

/-- Whitespace-run splitter, the model of `.split(/\s+/)` on trimmed input
(on trimmed, non-empty input the JavaScript split produces no empty
fragments; on wholly-empty input both produce no token longer than 2, which
is all the caller observes). -/
def splitWsGo : List Char → List Char → List (List Char)
  | [], acc => if acc.isEmpty then [] else [acc.reverse]
  | c :: t, acc =>
    if isSpaceJS c then
      if acc.isEmpty then splitWsGo t [] else acc.reverse :: splitWsGo t []
    else splitWsGo t (c :: acc)

def splitWs (l : List Char) : List (List Char) := splitWsGo l []

/-- Tokens of length `> 2` of the lower-cased, trimmed string. -/
def titleTokens (s : String) : List (List Char) :=
  (splitWs (trimJS (jsToLower s).toList)).filter (fun w => 2 < w.length)

/-- The canonical-name tokens that occur (by substring containment in either
direction) among the candidate's tokens. -/
def matchedTokens (identifiedName resultTitle : String) : List (List Char) :=
  (titleTokens identifiedName).filter (fun w =>
    (titleTokens resultTitle).any (fun rw => containsSeq rw w || containsSeq w rw))

/-- `calculateTitleMatchScore` of `src/unnamed/part_002` (lines 578-613). -/
def calculateTitleMatchScore (identifiedName resultTitle : String) : ℚ :=
  if resultTitle == "" then 0
  else
    let identified := trimJS (jsToLower identifiedName).toList
    let result := trimJS (jsToLower resultTitle).toList
    if identified == result then 100
    else
      let identifiedWords := titleTokens identifiedName
      let matchedWords := matchedTokens identifiedName resultTitle
      let matchRatio : ℚ := (matchedWords.length : ℚ) / (identifiedWords.length : ℚ)
      if matchedWords.length < 2 then 0
      else if 1 ≤ matchRatio then 95
      else if 3 / 4 ≤ matchRatio then 85
      else if 1 / 2 ≤ matchRatio then 70
      else 0

/-- The record's title as passed to the matcher, `item.title || ""`. -/
def titleStrOf (st : Store) (item : JVal) : String :=
  jsToStringV st (jsOrV (getField st item "title") (.str ""))

/-- `scoreResult` of `src/unnamed/part_002` (lines 523-571), with the same
sequential accumulation as the source. -/
def scoreResult (st : Store) (item : JVal) (identifiedName : String)
    (isTrustedShop : Bool) : ℚ :=
  let score : ℚ := 0
  let score := score + (if isIndianResult st item then 80 else -100)
  let priceData := extractPriceDeep st item
  let score := score +
    (if 0 < priceData.min then
      100 + (if 90 ≤ priceData.confidence then (20 : ℚ)
             else if 80 ≤ priceData.confidence then 10 else 0)
    else -50)
  let titleScore := calculateTitleMatchScore identifiedName (titleStrOf st item)
  let score := score + titleScore / 100 * 30
  let score := score + (if isTrustedShop then 20 else 0)
  let score := score +
    (if 0 < priceData.min then (if isProductInStock st item then 10 else -5) else 0)
  score

end Part002

namespace Part002

def TRUSTED_SHOPS : List String :=
  ["amazon", "flipkart", "myntra", "croma", "reliance", "tatacliq",
   "meesho", "ajio", "boat", "samsung", "apple", "oneplus", "realme"]

/-- `item.source?.toLowerCase().includes(shop) || item.link?...`: optional
chaining short-circuits on `null`/`undefined`. -/
def fieldIncludes (st : Store) (item : JVal) (k : String) (needle : String) : Bool :=
  match getField st item k with
  | some .null => false
  | some v => containsStr (jsToLower (jsToStringV st v)) needle
  | none => false

def isTrustedOf (st : Store) (item : JVal) : Bool :=
  TRUSTED_SHOPS.any (fun shop =>
    fieldIncludes st item "source" shop || fieldIncludes st item "link" shop)

/-- One scored candidate record of the deep-parser engine. -/
structure Scored where
  item : JVal
  score : ℚ
  inStock : Bool
  hasPrice : Bool
  price : ℚ
  trusted : Bool
  isIndian : Bool
  currency : String
deriving Repr, DecidableEq

def mkScored (st : Store) (identifiedName : String) (item : JVal) : Scored :=
  let isTrusted := isTrustedOf st item
  let priceData := extractPriceDeep st item
  { item := item
    score := scoreResult st item identifiedName isTrusted
    inStock := isProductInStock st item
    hasPrice := decide (0 < priceData.min)
    price := priceData.min
    trusted := isTrusted
    isIndian := isIndianResult st item
    currency := detectCurrency (priceStrOf st item) }

/-- Stable descending sort on a rational key, the behaviour of the stable
JavaScript `sort((a, b) => key b - key a)`: indices decorate the elements so
the order becomes total and any correct sort yields the unique stable
result.  Insertion sort keeps the file kernel-computable. -/
def insertRanked {α : Type} (x : ℕ × ℚ × α) : List (ℕ × ℚ × α) → List (ℕ × ℚ × α)
  | [] => [x]
  | y :: ys =>
    if x.2.1 > y.2.1 ∨ (x.2.1 = y.2.1 ∧ x.1 < y.1) then x :: y :: ys
    else y :: insertRanked x ys

def sortDescBy {α : Type} (key : α → ℚ) (l : List α) : List α :=
  (((l.enum.map (fun p => (p.1, key p.2, p.2))).foldr insertRanked []).map
    (fun t => t.2.2))

/-- The `a?.item || b?.item || c?.item` chain followed by the `!bestDeal`
check: the first present and truthy item wins; none means the engine throws. -/
def firstTruthy : List (Option JVal) → Option JVal
  | [] => none
  | o :: rest =>
    match o with
    | some v => if jsTruthy v then some v else firstTruthy rest
    | none => firstTruthy rest

/-- The selection fallback of `identifyProduct` (lines 690-718): Indian
results with a price, then any result with a price, then anything. -/
def selectRanked (scored : List Scored) : Option JVal :=
  let resultsWithPrice := scored.filter (fun r => r.hasPrice)
  let indianWithPrice := resultsWithPrice.filter (fun r => r.isIndian)
  firstTruthy
    [indianWithPrice.head?.map (fun r => r.item),
     resultsWithPrice.head?.map (fun r => r.item),
     scored.head?.map (fun r => r.item)]

/-- The title-matched, ranked candidate list (steps 1-2 of the price-search
phase of `identifyProduct`, lines 651-688). -/
def rankedCandidates (st : Store) (identifiedName : String)
    (shoppingResults : List JVal) : List Scored :=
  let matchedResults :=
    (sortDescBy (fun p => p.2)
      ((shoppingResults.map (fun item =>
        (item, calculateTitleMatchScore identifiedName (titleStrOf st item)))).filter
        (fun x => 0 < x.2))).map Prod.fst
  let resultsToScore := if matchedResults.isEmpty then shoppingResults else matchedResults
  sortDescBy (fun r => r.score) (resultsToScore.map (mkScored st identifiedName))

/-- One alternates entry (the source nests these under a `web` key). -/
structure SourceEntry where
  uri : String
  title : String
  price : String
deriving Repr, DecidableEq

/-- The displayed price text of an alternates entry (lines 746-761). -/
def sourcePriceText (st : Store) (item : JVal) : String :=
  let p0 := jsOrV (getField st item "price") (.str "")
  if jsTruthy p0 then jsToStringV st p0
  else
    let ep := getField st item "extracted_price"
    if jsTruthyO ep then "₹" ++ jsToStringV st (ep.getD .null)
    else
      let deep := extractPriceDeep st item
      if 0 < deep.min then
        "₹" ++ numToString deep.min ++
          (if deep.min < deep.max then "-₹" ++ numToString deep.max else "")
      else "Check Price"

structure ProductResult where
  name : String
  priceMin : ℚ
  priceMax : ℚ
  shopUrl : String
  currency : String
  confidence : ℚ
  imageUrl : Option String
  sources : List SourceEntry
deriving Repr, DecidableEq

/-- The pure core of `identifyProduct` of `src/unnamed/part_002`
(lines 650-788): everything after the network steps have produced the
identified name and the shopping results.  `imageSrc` is the input image
echoed into the result. -/
def identifyProduct (st : Store) (identifiedName : String) (imageSrc : String)
    (shoppingResults : List JVal) : Except String ProductResult :=
  if shoppingResults.isEmpty then
    .ok { name := identifiedName, priceMin := 0, priceMax := 0, shopUrl := "",
          currency := "₹", confidence := if (0 : ℚ) < 0 then 90 else 60,
          imageUrl := some imageSrc, sources := [] }
  else
    let scoredResults := rankedCandidates st identifiedName shoppingResults
    match selectRanked scoredResults with
    | none => .error "No valid products found after scoring."
    | some bestDeal =>
      let priceData := extractPriceDeep st bestDeal
      let resultsWithPrice := scoredResults.filter (fun r => r.hasPrice)
      let indianWithPrice := resultsWithPrice.filter (fun r => r.isIndian)
      let prioritySources := (indianWithPrice.map (fun r => r.item)).take 5
      let fallbackSources :=
        ((resultsWithPrice.filter (fun r =>
          !(prioritySources.any (fun p => p == r.item)))).map (fun r => r.item)).take 3
      let sourcesToShow := prioritySources ++ fallbackSources
      let finalSources := sourcesToShow.map (fun item =>
        { uri := jsToStringV st (jsOrV (getField st item "link") (.str ""))
          title := jsToStringV st (jsOrV (getField st item "title") (.str "Product"))
          price := sourcePriceText st item : SourceEntry })
      .ok { name := identifiedName, priceMin := priceData.min, priceMax := priceData.max,
            shopUrl := jsToStringV st (jsOrV (getField st bestDeal "link") (.str "")),
            currency := "₹",
            confidence := if 0 < priceData.min then 90 else 60,
            imageUrl := some imageSrc, sources := finalSources }

end Part002

/-! ## `src/services/gemini.ts` — the strict whitelist engine -/

namespace Gemini

def TRUSTED_STORES : List String :=
  ["amazon.in", "flipkart.com", "myntra.com", "croma.com", "reliance.com",
   "tatacliq.com", "boat-lifestyle.com", "samsung.com", "apple.com"]

def BLOCKED_STORES : List String :=
  ["alibaba", "aliexpress", "ubuy", "indiamart", "indiamart.com", "ebay",
   "ebay.com", "dhgate", "wish", "gearbest", "banggood", "fasttech",
   "lazada", "shopee"]

/-- The out-of-stock keyword list (the source lists `out of stock` twice). -/
def OUT_OF_STOCK_KEYWORDS : List String :=
  ["out of stock", "out-of-stock", "out of stock", "unavailable",
   "discontinued", "no longer available", "not available", "sold out",
   "notify me", "backorder", "back order", "preorder", "coming soon"]

/-- `isTrustedStore` of `src/services/gemini.ts` (lines 313-337): empty link
rejected, blocked stores rejected first, then the whitelist, and unknown
stores rejected by default. -/
def isTrustedStore (link : String) : Bool :=
  if link == "" then false
  else
    let lowerLink := jsToLower link
    if BLOCKED_STORES.any (fun b => containsStr lowerLink b) then false
    else TRUSTED_STORES.any (fun t => containsStr lowerLink t)

/-- The stock detector's price signal `item.price || item.extracted_price`. -/
def stockPriceVal (st : Store) (item : JVal) : Option JVal :=
  jsOrO (getField st item "price") (getField st item "extracted_price")

/-- The lower-cased title, `(item.title || "").toLowerCase()`. -/
def titleLowerOf (st : Store) (item : JVal) : String :=
  jsToLower (jsToStringV st (jsOrV (getField st item "title") (.str "")))

/-- The lower-cased status, `(item.status || "").toLowerCase()`. -/
def statusLowerOf (st : Store) (item : JVal) : String :=
  jsToLower (jsToStringV st (jsOrV (getField st item "status") (.str "")))

/-- `detectStockStatus` of `src/services/gemini.ts` (lines 351-378):
out-of-stock keywords in the title reject; an out-of-stock status field
rejects; a price that coerces to a positive number accepts; otherwise the
conservative default is `false`. -/
def detectStockStatus (st : Store) (item : JVal) : Bool :=
  let title := titleLowerOf st item
  if OUT_OF_STOCK_KEYWORDS.any (fun kw => containsStr title (jsToLower kw)) then false
  else
    let status := statusLowerOf st item
    if containsStr status "out of stock" || containsStr status "unavailable" ||
        containsStr status "discontinued" then false
    else
      let price := stockPriceVal st item
      if jsTruthyO price && jsGtZeroO price then true
      else false

/-- Dash class `[-–—]` of the whitelist engine's range regex. -/
def dashG (c : Char) : Bool := c == '-' || c == '–' || c == '—'

/-- Strict thousands star `(?:,\d{3})*`: each iteration is a comma and
exactly three digits. -/
def chunksStrictGo : ℕ → List Char → List Char × List Char
  | 0, l => ([], l)
  | fuel + 1, l =>
    match l with
    | ',' :: a :: b :: c :: rest =>
      if a.isDigit && b.isDigit && c.isDigit then
        let r := chunksStrictGo fuel rest
        (',' :: a :: b :: c :: r.1, r.2)
      else ([], l)
    | _ => ([], l)

def chunksStrict (l : List Char) : List Char × List Char := chunksStrictGo l.length l

/-- Greedy deterministic matcher for `(\d+(?:,\d{3})*(?:\.\d{2})?)`; as with
the loose variant, the greedy compilation is extensionally equal to the
backtracking regex. -/
def matchNumStrict (l : List Char) : Option (List Char × List Char) :=
  let ds := l.takeWhile Char.isDigit
  let r := l.dropWhile Char.isDigit
  if ds.isEmpty then none
  else
    let cs := chunksStrict r
    match cs.2 with
    | '.' :: a :: b :: r'' =>
      if a.isDigit && b.isDigit then some (ds ++ cs.1 ++ ['.', a, b], r'')
      else some (ds ++ cs.1, cs.2)
    | _ => some (ds ++ cs.1, cs.2)

/-- Optional marker `(?:₹|rs\.?\s*)?` with `/i`: the whitespace run belongs
to the `rs` alternative only. -/
def markerG (l : List Char) : List Char :=
  match matchLit l ['₹'] with
  | some r => r
  | none =>
    match matchLit l ['r', 's'] with
    | some r =>
      (match r with
       | '.' :: r' => r'
       | _ => r).dropWhile isSpaceJS
    | none => l

/-- One anchored attempt of the range regex
`(?:₹|rs\.?\s*)?(\d+(?:,\d{3})*(?:\.\d{2})?)\s*[-–—]\s*(?:₹|rs\.?\s*)?(\d+(?:,\d{3})*(?:\.\d{2})?)/i`. -/
def rangeAtG (l : List Char) : Option (List Char × List Char) :=
  match matchNumStrict (markerG l) with
  | none => none
  | some (c1, r1) =>
    match dropSpaces r1 with
    | d :: r2 =>
      if dashG d then
        match matchNumStrict (markerG (dropSpaces r2)) with
        | none => none
        | some (c2, _) => some (c1, c2)
      else none
    | [] => none

/-- One anchored attempt of the single-price regex
`(?:₹|rs\.?\s*)?(\d+(?:,\d{3})*(?:\.\d{2})?)/i`. -/
def singleAtG (l : List Char) : Option (List Char) :=
  (matchNumStrict (markerG l)).map Prod.fst

structure MinMax where
  min : ℚ
  max : ℚ
deriving Repr, DecidableEq

/-- The single-price fall-through of `extractPrice` (`parseFloat` then
`Math.round`). -/
def singleFallbackG (l : List Char) : MinMax :=
  match findLeftmost singleAtG l with
  | some c =>
    let p := parseCapture c
    if 0 < p then ⟨jsRound p, jsRound p⟩ else ⟨0, 0⟩
  | none => ⟨0, 0⟩

/-- `extractPrice` of `src/services/gemini.ts` (lines 392-431): the price
value is `item.price || item.extracted_price || ""`; ranges are parsed with
`parseInt` (truncation) and accepted when both ends are positive, single
prices with `parseFloat` and `Math.round`. -/
def extractPrice (st : Store) (item : JVal) : MinMax :=
  let price := jsOrV (getField st item "price")
    (jsOrV (getField st item "extracted_price") (.str ""))
  if !jsTruthy price then ⟨0, 0⟩
  else
    let priceStr := trimJS (jsToStringV st price).toList
    match findLeftmost rangeAtG priceStr with
    | some (c1, c2) =>
      let mn := parseIntCapture c1
      let mx := parseIntCapture c2
      if 0 < mn ∧ 0 < mx then ⟨mn, mx⟩
      else singleFallbackG priceStr
    | none => singleFallbackG priceStr

/-- The link as the selection loop reads it, `item.link || ""`. -/
def linkStrOf (st : Store) (item : JVal) : String :=
  jsToStringV st (jsOrV (getField st item "link") (.str ""))

/-- The selection loop of `identifyProduct` (lines 488-528): skip untrusted
stores, skip out-of-stock items, and keep the first remaining item with a
positive extracted price (`bestDeal` is never overwritten once set). -/
def selectBest (st : Store) : List JVal → Option (JVal × String)
  | [] => none
  | item :: rest =>
    if !isTrustedStore (linkStrOf st item) then selectBest st rest
    else if !detectStockStatus st item then selectBest st rest
    else if 0 < (extractPrice st item).min then
      some (item, jsToStringV st (jsOrV (getField st item "source") (.str "Unknown")))
    else selectBest st rest

structure ProductResult where
  name : String
  priceMin : ℚ
  priceMax : ℚ
  shopUrl : String
  currency : String
  sourceName : String
  inStock : Bool
  priceAvailable : Bool
  confidence : ℚ
deriving Repr, DecidableEq

/-- The pure core of `identifyProduct` of `src/services/gemini.ts`
(lines 452-568): everything after the search produced `allResults`, given
the sanitised product name. -/
def identifyProduct (st : Store) (cleanProductName : String)
    (allResults : List JVal) : Except String ProductResult :=
  if allResults.isEmpty then .error "No shopping results found for this product"
  else
    match selectBest st allResults with
    | none => .error "No in-stock products from trusted stores found."
    | some (bestDeal, bestStoreName) =>
      let mm := extractPrice st bestDeal
      .ok { name := cleanProductName, priceMin := mm.min, priceMax := mm.max,
            shopUrl := linkStrOf st bestDeal,
            currency := "₹", sourceName := bestStoreName,
            inStock := detectStockStatus st bestDeal,
            priceAvailable := decide (0 < mm.min), confidence := 85 }

end Gemini

namespace Part002

/-- The value selected by the priority-1 loop: the first positive numeric
field among `fieldNames`. -/
def firstNumPrice (fields : List (String × JVal)) : Option ℚ :=
  fieldNames.findSome? (fun f =>
    match lookupField fields f with
    | some (.num q) => if 0 < q then some q else none
    | _ => none)

end Part002

/-! ## A rendering grammar for price-range strings (claim C5)

`renderRange` renders exactly the strings the claim quantifies over: two
numerals with optional thousands separators and optional two-digit decimals,
separated by a dash with optional whitespace and optional `₹`/`Rs`/`Rs.`/`INR`
markers. -/

inductive PMarker where
  | rupee
  | rs
  | rsDot
  | inr
deriving Repr, DecidableEq

def renderMarker : Option PMarker → List Char
  | none => []
  | some .rupee => ['₹']
  | some .rs => ['R', 's']
  | some .rsDot => ['R', 's', '.']
  | some .inr => ['I', 'N', 'R']

/-- Digit groups joined by thousands separators. -/
def renderGroups (g0 : List Char) (gs : List (List Char)) : List Char :=
  g0 ++ (gs.map (fun g => ',' :: g)).flatten

def renderDec : Option (Char × Char) → List Char
  | none => []
  | some (a, b) => ['.', a, b]

/-- One rendered numeral: digit groups and an optional two-digit decimal. -/
def renderNum (g0 : List Char) (gs : List (List Char)) (dec : Option (Char × Char)) : List Char :=
  renderGroups g0 gs ++ renderDec dec

def spacesRun (k : ℕ) : List Char := List.replicate k ' '

/-- A price-range string `X–Y` with optional markers, whitespace, thousands
separators and decimals. -/
def renderRange (m1 : Option PMarker) (k1 : ℕ) (g0 : List Char) (gs : List (List Char))
    (dec : Option (Char × Char)) (k2 : ℕ) (d : Char) (k3 : ℕ) (m2 : Option PMarker)
    (k4 : ℕ) (g0' : List Char) (gs' : List (List Char)) (dec' : Option (Char × Char)) :
    List Char :=
  renderMarker m1 ++ spacesRun k1 ++ renderNum g0 gs dec ++ spacesRun k2 ++ [d] ++
    spacesRun k3 ++ renderMarker m2 ++ spacesRun k4 ++ renderNum g0' gs' dec'

/-- Well-formedness of a rendered numeral: a nonempty leading digit group,
nonempty digit groups after each separator, digit decimals. -/
def wfNumB (g0 : List Char) (gs : List (List Char)) (dec : Option (Char × Char)) : Bool :=
  !g0.isEmpty && g0.all Char.isDigit &&
    gs.all (fun g => !g.isEmpty && g.all Char.isDigit) &&
    (match dec with
     | none => true
     | some (a, b) => a.isDigit && b.isDigit)

/-- The numeric value a rendered numeral denotes. -/
def numVal (g0 : List Char) (gs : List (List Char)) (dec : Option (Char × Char)) : ℚ :=
  match dec with
  | none => (digitsToNat (g0 ++ gs.flatten) : ℚ)
  | some (a, b) => (digitsToNat (g0 ++ gs.flatten) : ℚ) + (digitsToNat [a, b] : ℚ) / (10 : ℚ) ^ 2

/-! ## Concrete stores used by the witnesses and counterexamples -/

/-- A blocked listing and a trusted in-stock priced listing. -/
def wStoreTrust : Store :=
  [(0, .obj [("link", .str "https://www.aliexpress.com/p"), ("title", .str "Boat Nirvana"),
             ("price", .str "₹999")]),
   (1, .obj [("link", .str "https://www.amazon.in/dp/B0"), ("title", .str "Boat Nirvana Ion"),
             ("source", .str "Amazon.in"), ("price", .num 1499)])]

/-- Every record on a blocked domain. -/
def wStoreAllBlocked : Store :=
  [(0, .obj [("link", .str "https://www.aliexpress.com/p"), ("price", .num 999)]),
   (1, .obj [("link", .str "https://www.ubuy.co.in/x"), ("price", .num 1099)])]

/-- A region-matched record whose price string is a descending range. -/
def wStoreRange : Store :=
  [(0, .obj [("title", .str "Boat Nirvana Ion TWS"), ("link", .str "https://www.flipkart.com/x"),
             ("source", .str "Flipkart"), ("price", .str "₹1,999 - ₹1,499")])]

/-- A record with a direct numeric price field. -/
def wStoreNum : Store := [(0, .obj [("price", .num 1499)])]

/-- A record with no stock signal, no price and a harmless title. -/
def wStoreNoSignal : Store := [(0, .obj [("title", .str "Boat Airdopes 141")])]

/-- A cyclic record: the object references itself and a nested object that
carries a price. -/
def wStoreCyclic : Store :=
  [(0, .obj [("self", .ref 0), ("deep", .ref 1)]),
   (1, .obj [("cost", .str "₹42")])]

/-- A record with a dollar price on an Indian domain. -/
def wStoreDollar : Store :=
  [(0, .obj [("price", .str "$19.99"), ("link", .str "https://www.amazon.in/x")])]

/-- The result the whitelist engine assembles on `wStoreTrust`. -/
def wResultTrust : Gemini.ProductResult :=
  { name := "Boat Nirvana Ion", priceMin := 1499, priceMax := 1499,
    shopUrl := "https://www.amazon.in/dp/B0", currency := "₹",
    sourceName := "Amazon.in", inStock := true, priceAvailable := true,
    confidence := 85 }

/-- The result the deep-parser engine assembles on `wStoreRange`. -/
def wResultRange : Part002.ProductResult :=
  { name := "Boat Nirvana Ion", priceMin := 1999, priceMax := 1499,
    shopUrl := "https://www.flipkart.com/x", currency := "₹", confidence := 90,
    imageUrl := some "img",
    sources := [{ uri := "https://www.flipkart.com/x", title := "Boat Nirvana Ion TWS",
                  price := "₹1,999 - ₹1,499" }] }

/-! ## Helper lemmas -/

theorem findSome?_map_comp {α β γ : Type} (f : α → Option β) (g : β → γ) :
    ∀ l : List α, l.findSome? (fun a => (f a).map g) = (l.findSome? f).map g := by
  intro l
  induction l with
  | nil => rfl
  | cons a t ih =>
    simp only [List.findSome?]
    cases h : f a <;> simp [h, ih]

/-- The priority-1 loop returns exactly the first positive numeric price
field, packaged with confidence 95. -/
theorem p1_as_firstNumPrice (fields : List (String × JVal)) :
    Part002.priority1 fields = (Part002.firstNumPrice fields).map
      (fun q => ⟨jsRound q, jsRound q, numToString q, 95⟩) := by
  unfold Part002.priority1 Part002.firstNumPrice
  rw [← findSome?_map_comp]
  congr 1
  funext f
  cases h : lookupField fields f with
  | none => rfl
  | some v =>
    cases v with
    | num q => by_cases hq : 0 < q <;> simp [hq]
    | null => rfl
    | bool b => rfl
    | str s => rfl
    | ref o => rfl

theorem firstNumPrice_pos (fields : List (String × JVal)) (q : ℚ)
    (h : Part002.firstNumPrice fields = some q) : 0 < q := by
  unfold Part002.firstNumPrice at h
  obtain ⟨f, -, hf⟩ := List.exists_of_findSome?_eq_some h
  revert hf
  cases lookupField fields f with
  | none => intro hf; cases hf
  | some v =>
    cases v with
    | num q' =>
      by_cases hq : 0 < q' <;> simp [hq]
      rintro rfl; exact hq
    | null => intro hf; cases hf
    | bool b => intro hf; cases hf
    | str s => intro hf; cases hf
    | ref o => intro hf; cases hf

/-! ## Claim C2 — the composite score formula -/

/-- Claim C2: for every record, the composite score of the scorer equals
`(regionOk ? +80 : -100) + (hasPrice ? +100 + confidenceBonus : -50)
 + (matchScore/100 * 30) + (trusted ? +20 : 0)
 + (hasPrice ? (inStock ? +10 : -5) : 0)`,
with `confidenceBonus` 20 for extraction confidence ≥ 90, 10 for ≥ 80,
else 0. -/
theorem claim_C2 (st : Store) (item : JVal) (identifiedName : String)
    (isTrustedShop : Bool) :
    Part002.scoreResult st item identifiedName isTrustedShop =
      (if Part002.isIndianResult st item then (80 : ℚ) else -100) +
      (if 0 < (Part002.extractPriceDeep st item).min then
        100 + (if 90 ≤ (Part002.extractPriceDeep st item).confidence then (20 : ℚ)
               else if 80 ≤ (Part002.extractPriceDeep st item).confidence then 10 else 0)
       else -50) +
      Part002.calculateTitleMatchScore identifiedName (Part002.titleStrOf st item) / 100 * 30 +
      (if isTrustedShop then (20 : ℚ) else 0) +
      (if 0 < (Part002.extractPriceDeep st item).min then
        (if Part002.isProductInStock st item then (10 : ℚ) else -5) else 0) := by
  simp only [Part002.scoreResult]
  ring

/-! ## Claim C10 — foreign currency rejection precedes domain acceptance -/

/-- Claim C10: a record whose price string the currency detector classifies
as USD, EUR or GBP is never region-accepted, whatever its link contains. -/
theorem claim_C10 (st : Store) (item : JVal)
    (h : Part002.detectCurrency (Part002.priceStrOf st item) = "USD" ∨
         Part002.detectCurrency (Part002.priceStrOf st item) = "EUR" ∨
         Part002.detectCurrency (Part002.priceStrOf st item) = "GBP") :
    Part002.isIndianResult st item = false := by
  unfold Part002.isIndianResult
  rcases h with h | h | h <;> simp [h]

/-- Witness for C10: a `$19.99` record on `amazon.in` is rejected. -/
theorem claim_C10_witness :
    containsStr (Part002.linkLowerOf wStoreDollar (.ref 0)) "amazon.in" = true ∧
    Part002.isIndianResult wStoreDollar (.ref 0) = false :=
  ⟨by with_unfolding_all rfl,
   claim_C10 wStoreDollar (.ref 0) (Or.inl (by with_unfolding_all rfl))⟩

/-! ## Claim C8 — conservative stock default -/

/-- Claim C8: a record with no out-of-stock phrase in its title, no explicit
status field, and no price signal coercing to a positive number is classified
out of stock (the conservative default of the canonical policy). -/
theorem claim_C8 (st : Store) (item : JVal)
    (h1 : ∀ kw ∈ Gemini.OUT_OF_STOCK_KEYWORDS,
      containsStr (Gemini.titleLowerOf st item) (jsToLower kw) = false)
    (h2 : getField st item "status" = none)
    (h3 : (jsTruthyO (Gemini.stockPriceVal st item) &&
           jsGtZeroO (Gemini.stockPriceVal st item)) = false) :
    Gemini.detectStockStatus st item = false := by
  unfold Gemini.detectStockStatus
  have hkw : (Gemini.OUT_OF_STOCK_KEYWORDS.any
      (fun kw => containsStr (Gemini.titleLowerOf st item) (jsToLower kw))) = false := by
    rw [List.any_eq_false]
    intro kw hkw
    simp [h1 kw hkw]
  have hstatus : Gemini.statusLowerOf st item = "" := by
    unfold Gemini.statusLowerOf
    rw [h2]
    with_unfolding_all rfl
  simp [hkw, hstatus, h3]

/-- Witness for C8: a record with only a harmless title. -/
theorem claim_C8_witness : Gemini.detectStockStatus wStoreNoSignal (.ref 0) = false :=
  claim_C8 wStoreNoSignal (.ref 0)
    (by intro kw hkw; fin_cases hkw <;> with_unfolding_all rfl)
    (by with_unfolding_all rfl)
    (by with_unfolding_all rfl)

/-! ## Claim C6 — direct numeric price fields -/

/-- Claim C6: a record whose first positive numeric field among the
prioritised price names holds `q` extracts with confidence 95 and
`min = max = round q`. -/
theorem claim_C6 (st : Store) (o : ℕ) (data : JObjData) (q : ℚ)
    (h1 : lookupStore st o = some data)
    (h2 : Part002.firstNumPrice (jfields data) = some q) :
    0 < q ∧ Part002.extractPriceDeep st (.ref o) =
      ⟨jsRound q, jsRound q, numToString q, 95⟩ := by
  refine ⟨firstNumPrice_pos _ _ h2, ?_⟩
  unfold Part002.extractPriceDeep Part002.fuelBound
  simp only [Part002.extractPriceDeepF, h1, Finset.not_mem_empty, if_false,
    p1_as_firstNumPrice, h2, Option.map_some']

/-- Witness for C6: a record with `price: 1499`. -/
theorem claim_C6_witness :
    (0 : ℚ) < 1499 ∧ Part002.extractPriceDeep wStoreNum (.ref 0) =
      ⟨jsRound 1499, jsRound 1499, numToString 1499, 95⟩ :=
  claim_C6 wStoreNum 0 (.obj [("price", .num 1499)]) 1499
    (by with_unfolding_all rfl) (by with_unfolding_all rfl)

/-! ## Claim C7 — title-match bands -/

/-- Counterexample to C7 as stated: two exactly equal strings whose score is
0, not 100 (the matcher rejects an empty candidate title before comparing). -/
theorem claim_C7_counterexample :
    ("" : String) = "" ∧ Part002.calculateTitleMatchScore "" "" = 0 ∧ (0 : ℚ) ≠ 100 :=
  ⟨rfl, by with_unfolding_all rfl, by norm_num⟩

/-- Claim C7 (amended): the score is always one of 0, 70, 85, 95, 100, and
follows the claimed case structure except that an empty candidate title
scores 0 before the (lower-cased, trimmed) equality short-circuit. -/
theorem claim_C7 (name title : String) :
    Part002.calculateTitleMatchScore name title ∈ ([0, 70, 85, 95, 100] : List ℚ) ∧
    Part002.calculateTitleMatchScore name title =
      (if title == "" then 0
       else if trimJS (jsToLower name).toList == trimJS (jsToLower title).toList then 100
       else if (Part002.matchedTokens name title).length < 2 then 0
       else if 1 ≤ ((Part002.matchedTokens name title).length : ℚ) /
           ((Part002.titleTokens name).length : ℚ) then 95
       else if 3 / 4 ≤ ((Part002.matchedTokens name title).length : ℚ) /
           ((Part002.titleTokens name).length : ℚ) then 85
       else if 1 / 2 ≤ ((Part002.matchedTokens name title).length : ℚ) /
           ((Part002.titleTokens name).length : ℚ) then 70
       else 0) := by
  constructor
  · simp only [Part002.calculateTitleMatchScore]
    split_ifs <;> simp
  · rfl

/-! ## Claim C4 — output invariants of the assembled result -/

/-- Counterexample to C4 as stated: on a record whose price string is the
descending range `₹1,999 - ₹1,499`, the assembled result has
`priceMax < priceMin`, violating the `priceMin ≤ priceMax` invariant. -/
theorem claim_C4_counterexample :
    (Part002.identifyProduct wStoreRange "Boat Nirvana Ion" "img" [.ref 0]).map
      (fun r => decide (r.priceMax < r.priceMin)) = .ok true := by
  with_unfolding_all rfl

/-- Claim C4 (amended): the deep-parser engine's confidence is 90 with a
price and 60 without, and the whitelist engine's `priceAvailable` equals
`priceMin > 0`; `priceMin ≤ priceMax` is dropped, since a descending range
string is copied through unordered. -/
theorem claim_C4 :
    (∀ (st : Store) (name img : String) (items : List JVal) (r : Part002.ProductResult),
      Part002.identifyProduct st name img items = .ok r →
      r.confidence = if 0 < r.priceMin then 90 else 60) ∧
    (∀ (st : Store) (name : String) (items : List JVal) (r : Gemini.ProductResult),
      Gemini.identifyProduct st name items = .ok r →
      r.priceAvailable = decide (0 < r.priceMin)) := by
  constructor
  · intro st name img items r h
    simp only [Part002.identifyProduct] at h
    split at h
    · simp only [Except.ok.injEq] at h
      subst h
      rfl
    · split at h
      · cases h
      · simp only [Except.ok.injEq] at h
        subst h
        rfl
  · intro st name items r h
    simp only [Gemini.identifyProduct] at h
    split at h
    · cases h
    · split at h
      · cases h
      · simp only [Except.ok.injEq] at h
        subst h
        rfl

/-- Witness for the amended C4 at the two engines' concrete results. -/
theorem claim_C4_witness :
    (wResultRange.confidence = if 0 < wResultRange.priceMin then 90 else 60) ∧
    (wResultTrust.priceAvailable = decide (0 < wResultTrust.priceMin)) :=
  ⟨claim_C4.1 wStoreRange "Boat Nirvana Ion" "img" [.ref 0] wResultRange
     (by with_unfolding_all rfl),
   claim_C4.2 wStoreTrust "Boat Nirvana Ion" [.ref 0, .ref 1] wResultTrust
     (by with_unfolding_all rfl)⟩

/-! ## Claim C1 — the blocklist is a hard veto -/

/-- A link accepted by the whitelist check contains no blocked-store token. -/
theorem isTrustedStore_no_blocked (link : String)
    (h : Gemini.isTrustedStore link = true) :
    ∀ b ∈ Gemini.BLOCKED_STORES, containsStr (jsToLower link) b = false := by
  intro b hb
  by_contra hc
  rw [Bool.not_eq_false] at hc
  have hany : (Gemini.BLOCKED_STORES.any fun x => containsStr (jsToLower link) x) = true :=
    List.any_eq_true.mpr ⟨b, hb, hc⟩
  unfold Gemini.isTrustedStore at h
  simp [hany] at h

/-- The selection loop only ever selects a record whose link passes the
whitelist check. -/
theorem selectBest_trusted (st : Store) :
    ∀ (items : List JVal) (bd : JVal) (src : String),
      Gemini.selectBest st items = some (bd, src) →
      Gemini.isTrustedStore (Gemini.linkStrOf st bd) = true := by
  intro items
  induction items with
  | nil => intro bd src h; cases h
  | cons it rest ih =>
    intro bd src h
    unfold Gemini.selectBest at h
    split_ifs at h with h1 h2 h3
    · exact ih bd src h
    · exact ih bd src h
    · simp only [Option.some.injEq, Prod.mk.injEq] at h
      obtain ⟨rfl, -⟩ := h
      simpa using h1
    · exact ih bd src h

/-- Claim C1: a record whose link contains a blocked-store token is never the
final best candidate: the winning result's shop link contains no blocked
token (this engine's result carries no alternates list at all, so the
sources half of the claim is vacuous here). -/
theorem claim_C1 (st : Store) (name : String) (items : List JVal)
    (res : Gemini.ProductResult)
    (h : Gemini.identifyProduct st name items = .ok res) :
    ∀ b ∈ Gemini.BLOCKED_STORES, containsStr (jsToLower res.shopUrl) b = false := by
  simp only [Gemini.identifyProduct] at h
  split at h
  · cases h
  · split at h
    · cases h
    · simp only [Except.ok.injEq] at h
      subst h
      next bd hsel =>
        exact isTrustedStore_no_blocked _ (selectBest_trusted st items _ _ hsel)

/-- Witness for C1: a blocked record is present yet the winner's link is
clean. -/
theorem claim_C1_witness :
    (∃ b ∈ Gemini.BLOCKED_STORES,
      containsStr (jsToLower (Gemini.linkStrOf wStoreTrust (.ref 0))) b = true) ∧
    (∀ b ∈ Gemini.BLOCKED_STORES,
      containsStr (jsToLower wResultTrust.shopUrl) b = false) :=
  ⟨⟨"aliexpress", by simp [Gemini.BLOCKED_STORES], by with_unfolding_all rfl⟩,
   claim_C1 wStoreTrust "Boat Nirvana Ion" [.ref 0, .ref 1] wResultTrust
     (by with_unfolding_all rfl)⟩

/-! ## Claim C3 — selection fallback chain and the no-candidate error -/

/-- A link containing a blocked-store token never passes the whitelist check. -/
theorem blocked_not_trusted (link : String)
    (h : ∃ b ∈ Gemini.BLOCKED_STORES, containsStr (jsToLower link) b = true) :
    Gemini.isTrustedStore link = false := by
  obtain ⟨b, hb, hc⟩ := h
  have hany : (Gemini.BLOCKED_STORES.any fun x => containsStr (jsToLower link) x) = true :=
    List.any_eq_true.mpr ⟨b, hb, hc⟩
  unfold Gemini.isTrustedStore
  simp [hany]

/-- With every record untrusted, the selection loop selects nothing. -/
theorem selectBest_none (st : Store) (items : List JVal)
    (h : ∀ it ∈ items, Gemini.isTrustedStore (Gemini.linkStrOf st it) = false) :
    Gemini.selectBest st items = none := by
  induction items with
  | nil => rfl
  | cons it rest ih =>
    unfold Gemini.selectBest
    simp [h it (by simp), ih (fun x hx => h x (List.mem_cons_of_mem _ hx))]

/-- Claim C3: the ranked list is partitioned into region-matched-with-price,
any-with-price and the remainder; the best candidate is the head of the first
non-empty partition, and with all partitions empty the deep-parser engine
raises its no-qualifying-candidate error; the whitelist engine raises its own
such error when every record is on a blocked domain. -/
theorem claim_C3 :
    (∀ scored : List Part002.Scored, (∀ r ∈ scored, jsTruthy r.item = true) →
      ((∀ r, (scored.filter (fun r => r.hasPrice && r.isIndian)).head? = some r →
         Part002.selectRanked scored = some r.item) ∧
       (scored.filter (fun r => r.hasPrice && r.isIndian) = [] →
         ∀ r, (scored.filter (fun r => r.hasPrice && !r.isIndian)).head? = some r →
         Part002.selectRanked scored = some r.item) ∧
       (scored.filter (fun r => r.hasPrice && r.isIndian) = [] →
         scored.filter (fun r => r.hasPrice && !r.isIndian) = [] →
         ∀ r, (scored.filter (fun r => !r.hasPrice)).head? = some r →
         Part002.selectRanked scored = some r.item) ∧
       (scored.filter (fun r => r.hasPrice && r.isIndian) = [] →
         scored.filter (fun r => r.hasPrice && !r.isIndian) = [] →
         scored.filter (fun r => !r.hasPrice) = [] →
         Part002.selectRanked scored = none))) ∧
    (∀ (st : Store) (name img : String) (items : List JVal),
      Part002.selectRanked (Part002.rankedCandidates st name items) = none → items ≠ [] →
      Part002.identifyProduct st name img items =
        .error "No valid products found after scoring.") ∧
    (∀ (st : Store) (name : String) (items : List JVal), items ≠ [] →
      (∀ item ∈ items, ∃ b ∈ Gemini.BLOCKED_STORES,
        containsStr (jsToLower (Gemini.linkStrOf st item)) b = true) →
      Gemini.identifyProduct st name items =
        .error "No in-stock products from trusted stores found.") := by
  refine ⟨?_, ?_, ?_⟩
  · intro scored htruthy
    have hfilt : (scored.filter (fun r => r.hasPrice)).filter (fun r => r.isIndian) =
        scored.filter (fun r => r.hasPrice && r.isIndian) := by
      rw [List.filter_filter]
      exact List.filter_congr (fun a _ => Bool.and_comm _ _)
    refine ⟨?_, ?_, ?_, ?_⟩
    · intro r hr
      have hmemf : r ∈ scored.filter (fun r => r.hasPrice && r.isIndian) :=
        List.mem_of_mem_head? (by simp [hr])
      have hmem : r ∈ scored := List.mem_of_mem_filter hmemf
      simp only [Part002.selectRanked]
      rw [hfilt, hr]
      simp [Part002.firstTruthy, htruthy r hmem]
    · intro hP1 r hr
      have hP2eq : scored.filter (fun r => r.hasPrice) =
          scored.filter (fun r => r.hasPrice && !r.isIndian) := by
        refine List.filter_congr ?_
        intro x hx
        have hnx := List.filter_eq_nil_iff.mp hP1 x hx
        cases hhp : x.hasPrice <;> cases hin : x.isIndian <;> simp_all
      have hmemf : r ∈ scored.filter (fun r => r.hasPrice && !r.isIndian) :=
        List.mem_of_mem_head? (by simp [hr])
      have hmem : r ∈ scored := List.mem_of_mem_filter hmemf
      simp only [Part002.selectRanked]
      rw [hfilt, hP1, hP2eq, hr]
      simp [Part002.firstTruthy, htruthy r hmem]
    · intro hP1 hP2 r hr
      have hnp : ∀ x ∈ scored, x.hasPrice = false := by
        intro x hx
        have h1 := List.filter_eq_nil_iff.mp hP1 x hx
        have h2 := List.filter_eq_nil_iff.mp hP2 x hx
        cases hhp : x.hasPrice <;> cases hin : x.isIndian <;> simp_all
      have hWP : scored.filter (fun r => r.hasPrice) = [] :=
        List.filter_eq_nil_iff.mpr (by intro x hx; simp [hnp x hx])
      have hP3 : scored.filter (fun r => !r.hasPrice) = scored :=
        List.filter_eq_self.mpr (by intro x hx; simp [hnp x hx])
      rw [hP3] at hr
      have hmem : r ∈ scored := List.mem_of_mem_head? (by simp [hr])
      simp only [Part002.selectRanked]
      rw [hfilt, hP1, hWP, hr]
      simp [Part002.firstTruthy, htruthy r hmem]
    · intro hP1 hP2 hP3
      have hnp : ∀ x ∈ scored, x.hasPrice = false := by
        intro x hx
        have h1 := List.filter_eq_nil_iff.mp hP1 x hx
        have h2 := List.filter_eq_nil_iff.mp hP2 x hx
        cases hhp : x.hasPrice <;> cases hin : x.isIndian <;> simp_all
      have hP3eq : scored.filter (fun r => !r.hasPrice) = scored :=
        List.filter_eq_self.mpr (by intro x hx; simp [hnp x hx])
      rw [hP3eq] at hP3
      subst hP3
      rfl
  · intro st name img items hsel hne
    have hni : items.isEmpty = false := by
      cases items with
      | nil => exact absurd rfl hne
      | cons a t => rfl
    simp only [Part002.identifyProduct]
    simp [hni, hsel]
  · intro st name items hne hblocked
    have hnone : Gemini.selectBest st items = none :=
      selectBest_none st items (fun it hit => blocked_not_trusted _ (hblocked it hit))
    have hni : items.isEmpty = false := by
      cases items with
      | nil => exact absurd rfl hne
      | cons a t => rfl
    simp only [Gemini.identifyProduct]
    simp [hni, hnone]

/-- Witness for C3: the empty partition case, a list whose only entry is a
falsy record (the deep engine errors), and an all-blocked list (the whitelist
engine errors). -/
theorem claim_C3_witness :
    Part002.selectRanked [] = none ∧
    Part002.identifyProduct [] "Boat Nirvana Ion" "img" [JVal.null] =
      .error "No valid products found after scoring." ∧
    Gemini.identifyProduct wStoreAllBlocked "Boat Nirvana Ion" [.ref 0, .ref 1] =
      .error "No in-stock products from trusted stores found." :=
  ⟨(claim_C3.1 [] (by simp)).2.2.2 rfl rfl rfl,
   claim_C3.2.1 [] "Boat Nirvana Ion" "img" [JVal.null]
     (by with_unfolding_all rfl) (by simp),
   claim_C3.2.2 wStoreAllBlocked "Boat Nirvana Ion" [.ref 0, .ref 1] (by simp)
     (by
       intro it hit
       fin_cases hit
       · exact ⟨"aliexpress", by simp [Gemini.BLOCKED_STORES], by with_unfolding_all rfl⟩
       · exact ⟨"ubuy", by simp [Gemini.BLOCKED_STORES], by with_unfolding_all rfl⟩)⟩

/-! ## Claim C9 — termination of the deep extractor via the visited set -/

theorem p3loop_vis_mono (rec : JVal → Finset ℕ → Part002.PriceResult × Finset ℕ)
    (hrec : ∀ v w, w ⊆ (rec v w).2) :
    ∀ (elems : List JVal) (vis : Finset ℕ), vis ⊆ (Part002.p3loop rec elems vis).2 := by
  intro elems
  induction elems with
  | nil => intro vis; exact Finset.Subset.refl _
  | cons e rest ih =>
    intro vis
    cases e with
    | ref o =>
      simp only [Part002.p3loop]
      by_cases h : 0 < (rec (.ref o) vis).1.min
      · simpa [h] using hrec _ _
      · simpa [h] using (hrec _ _).trans (ih _)
    | str s =>
      simp only [Part002.p3loop]
      by_cases h : 0 < (Part002.cleanAndParsePriceString s).min
      · simp [h]
      · simpa [h] using ih _
    | null => simpa only [Part002.p3loop] using ih _
    | bool b => simpa only [Part002.p3loop] using ih _
    | num q => simpa only [Part002.p3loop] using ih _

theorem p4loop_vis_mono (rec : JVal → Finset ℕ → Part002.PriceResult × Finset ℕ)
    (hrec : ∀ v w, w ⊆ (rec v w).2) :
    ∀ (fields : List (String × JVal)) (vis : Finset ℕ),
      vis ⊆ (Part002.p4loop rec fields vis).2 := by
  intro fields
  induction fields with
  | nil => intro vis; exact Finset.Subset.refl _
  | cons kv rest ih =>
    intro vis
    obtain ⟨k, v⟩ := kv
    simp only [Part002.p4loop]
    cases v with
    | ref o =>
      by_cases hvst : o ∈ vis
      · simpa [hvst] using ih _
      · by_cases hsk : jsToLower k ∈ Part002.skipKeys
        · simpa [hvst, hsk] using ih _
        · by_cases h : 0 < (rec (.ref o) vis).1.min
          · simpa [hvst, hsk, h] using hrec _ _
          · simpa [hvst, hsk, h] using (hrec _ _).trans (ih _)
    | null =>
      by_cases hsk : jsToLower k ∈ Part002.skipKeys
      · simpa [hsk] using ih _
      · by_cases h : 0 < (rec .null vis).1.min
        · simpa [hsk, h] using hrec _ _
        · simpa [hsk, h] using (hrec _ _).trans (ih _)
    | str s =>
      by_cases hsk : jsToLower k ∈ Part002.skipKeys
      · simpa [hsk] using ih _
      · by_cases hlen : s.length < 100
        · by_cases h : 0 < (Part002.cleanAndParsePriceString s).min
          · simp [hsk, hlen, h]
          · simpa [hsk, hlen, h] using ih _
        · simpa [hsk, hlen] using ih _
    | bool b =>
      by_cases hsk : jsToLower k ∈ Part002.skipKeys <;> simpa [hsk] using ih _
    | num q =>
      by_cases hsk : jsToLower k ∈ Part002.skipKeys <;> simpa [hsk] using ih _

theorem extractPriceDeepF_vis_mono (st : Store) :
    ∀ (fuel : ℕ) (v : JVal) (vis : Finset ℕ),
      vis ⊆ (Part002.extractPriceDeepF st fuel v vis).2 := by
  intro fuel
  induction fuel with
  | zero => intro v vis; exact Finset.Subset.refl _
  | succ n ih =>
    intro v vis
    cases v with
    | ref o =>
      simp only [Part002.extractPriceDeepF]
      cases hl : lookupStore st o with
      | none => exact Finset.Subset.refl _
      | some data =>
        by_cases hv : o ∈ vis
        · simp [hv]
        · simp only [hv, if_false, ite_false]
          have hins : vis ⊆ insert o vis := Finset.subset_insert o vis
          cases hp1 : Part002.priority1 (jfields data) with
          | some pr => simp only [hp1]; exact hins
          | none =>
            cases hp2 : Part002.priority2 (jfields data) with
            | some pr => simp only [hp1, hp2]; exact hins
            | none =>
              cases hdv : Part002.detectedValues st (jfields data) with
              | some elems =>
                simp only [hp1, hp2, hdv]
                have h3 := p3loop_vis_mono _ ih elems (insert o vis)
                cases h3r : (Part002.p3loop (Part002.extractPriceDeepF st n) elems (insert o vis)).1 with
                | some pr =>
                  simp only [h3r]
                  exact hins.trans (by simpa [h3r] using h3)
                | none =>
                  simp only [h3r]
                  have h4 := p4loop_vis_mono _ ih (jfields data)
                    (Part002.p3loop (Part002.extractPriceDeepF st n) elems (insert o vis)).2
                  cases h4r : (Part002.p4loop (Part002.extractPriceDeepF st n) (jfields data)
                      (Part002.p3loop (Part002.extractPriceDeepF st n) elems (insert o vis)).2).1 with
                  | some pr => simpa [h4r] using hins.trans (h3.trans h4)
                  | none => simpa [h4r] using hins.trans (h3.trans h4)
              | none =>
                simp only [hp1, hp2, hdv]
                have h4 := p4loop_vis_mono _ ih (jfields data) (insert o vis)
                cases h4r : (Part002.p4loop (Part002.extractPriceDeepF st n) (jfields data)
                    (insert o vis)).1 with
                | some pr => simpa [h4r] using hins.trans h4
                | none => simpa [h4r] using hins.trans h4
    | null => exact Finset.Subset.refl _
    | bool b => exact Finset.Subset.refl _
    | num q => exact Finset.Subset.refl _
    | str s => exact Finset.Subset.refl _

theorem mem_storeDom_of_lookup (st : Store) (o : ℕ) (d : JObjData)
    (h : lookupStore st o = some d) : o ∈ storeDom st := by
  induction st with
  | nil => cases h
  | cons p rest ih =>
    show o ∈ insert p.1 (storeDom rest)
    by_cases hp : p.1 = o
    · simp [hp]
    · refine Finset.mem_insert_of_mem (ih ?_)
      unfold lookupStore at h ⊢
      rw [List.find?_cons] at h
      simpa [show (p.1 == o) = false by simp [hp]] using h

theorem fuelBound_mono (st : Store) (v w : Finset ℕ) (h : v ⊆ w) :
    Part002.fuelBound st w ≤ Part002.fuelBound st v := by
  unfold Part002.fuelBound
  have := Finset.card_le_card
    (Finset.sdiff_subset_sdiff (Finset.Subset.refl (storeDom st)) h)
  omega

theorem fuelBound_insert (st : Store) (o : ℕ) (vis : Finset ℕ)
    (ho : o ∈ storeDom st) (hv : o ∉ vis) :
    Part002.fuelBound st (insert o vis) + 1 ≤ Part002.fuelBound st vis := by
  unfold Part002.fuelBound
  have hmem : o ∈ storeDom st \ vis := Finset.mem_sdiff.mpr ⟨ho, hv⟩
  have heq : storeDom st \ insert o vis = (storeDom st \ vis).erase o := by
    ext x
    simp [Finset.mem_sdiff, Finset.mem_erase, Finset.mem_insert]
    tauto
  rw [heq, Finset.card_erase_of_mem hmem]
  have hpos : 0 < (storeDom st \ vis).card := Finset.card_pos.mpr ⟨o, hmem⟩
  omega

theorem p3loop_congr (st : Store) (B : ℕ)
    (rec₁ rec₂ : JVal → Finset ℕ → Part002.PriceResult × Finset ℕ)
    (hmono : ∀ v w, w ⊆ (rec₁ v w).2)
    (hcong : ∀ v w, Part002.fuelBound st w ≤ B → rec₁ v w = rec₂ v w) :
    ∀ (elems : List JVal) (vis : Finset ℕ), Part002.fuelBound st vis ≤ B →
      Part002.p3loop rec₁ elems vis = Part002.p3loop rec₂ elems vis := by
  intro elems
  induction elems with
  | nil => intro vis _; rfl
  | cons e rest ih =>
    intro vis hvis
    cases e with
    | ref o =>
      have hre : rec₁ (.ref o) vis = rec₂ (.ref o) vis := hcong _ _ hvis
      have hnext : Part002.fuelBound st (rec₁ (.ref o) vis).2 ≤ B :=
        (fuelBound_mono st _ _ (hmono _ _)).trans hvis
      simp only [Part002.p3loop, ← hre]
      by_cases h : 0 < (rec₁ (.ref o) vis).1.min
      · simp [h]
      · simp [h, ih _ hnext]
    | str s =>
      simp only [Part002.p3loop]
      by_cases h : 0 < (Part002.cleanAndParsePriceString s).min
      · simp [h]
      · simp [h, ih _ hvis]
    | null => simp only [Part002.p3loop]; exact ih _ hvis
    | bool b => simp only [Part002.p3loop]; exact ih _ hvis
    | num q => simp only [Part002.p3loop]; exact ih _ hvis

theorem p4loop_congr (st : Store) (B : ℕ)
    (rec₁ rec₂ : JVal → Finset ℕ → Part002.PriceResult × Finset ℕ)
    (hmono : ∀ v w, w ⊆ (rec₁ v w).2)
    (hcong : ∀ v w, Part002.fuelBound st w ≤ B → rec₁ v w = rec₂ v w) :
    ∀ (fields : List (String × JVal)) (vis : Finset ℕ), Part002.fuelBound st vis ≤ B →
      Part002.p4loop rec₁ fields vis = Part002.p4loop rec₂ fields vis := by
  intro fields
  induction fields with
  | nil => intro vis _; rfl
  | cons kv rest ih =>
    intro vis hvis
    obtain ⟨k, v⟩ := kv
    simp only [Part002.p4loop]
    cases v with
    | ref o =>
      by_cases hvst : o ∈ vis
      · simpa [hvst] using ih _ hvis
      · by_cases hsk : jsToLower k ∈ Part002.skipKeys
        · simpa [hvst, hsk] using ih _ hvis
        · have hre : rec₁ (.ref o) vis = rec₂ (.ref o) vis := hcong _ _ hvis
          have hnext : Part002.fuelBound st (rec₁ (.ref o) vis).2 ≤ B :=
            (fuelBound_mono st _ _ (hmono _ _)).trans hvis
          simp only [← hre]
          by_cases h : 0 < (rec₁ (.ref o) vis).1.min
          · simp [hvst, hsk, h]
          · simp [hvst, hsk, h, ih _ hnext]
    | null =>
      by_cases hsk : jsToLower k ∈ Part002.skipKeys
      · simpa [hsk] using ih _ hvis
      · have hre : rec₁ .null vis = rec₂ .null vis := hcong _ _ hvis
        have hnext : Part002.fuelBound st (rec₁ .null vis).2 ≤ B :=
          (fuelBound_mono st _ _ (hmono _ _)).trans hvis
        simp only [← hre]
        by_cases h : 0 < (rec₁ .null vis).1.min
        · simp [hsk, h]
        · simp [hsk, h, ih _ hnext]
    | str s =>
      by_cases hsk : jsToLower k ∈ Part002.skipKeys
      · simpa [hsk] using ih _ hvis
      · by_cases hlen : s.length < 100
        · by_cases h : 0 < (Part002.cleanAndParsePriceString s).min
          · simp [hsk, hlen, h]
          · simp [hsk, hlen, h, ih _ hvis]
        · simp [hsk, hlen, ih _ hvis]
    | bool b =>
      by_cases hsk : jsToLower k ∈ Part002.skipKeys <;> simpa [hsk] using ih _ hvis
    | num q =>
      by_cases hsk : jsToLower k ∈ Part002.skipKeys <;> simpa [hsk] using ih _ hvis

/-- Any fuel of at least one plus the number of unvisited store objects gives
the same result as the canonical bound: the recursion has stabilised. -/
theorem extractPriceDeepF_stable (st : Store) :
    ∀ (fuel : ℕ) (v : JVal) (vis : Finset ℕ), Part002.fuelBound st vis ≤ fuel →
      Part002.extractPriceDeepF st fuel v vis =
      Part002.extractPriceDeepF st (Part002.fuelBound st vis) v vis := by
  intro fuel
  induction fuel using Nat.strong_induction_on with
  | _ fuel ih =>
    intro v vis hf
    have h1 : 1 ≤ Part002.fuelBound st vis := by
      unfold Part002.fuelBound; omega
    obtain ⟨m, rfl⟩ : ∃ m, fuel = m + 1 := ⟨fuel - 1, by omega⟩
    have hb : Part002.fuelBound st vis = (storeDom st \ vis).card + 1 := rfl
    rw [hb] at hf ⊢
    cases v with
    | null => rfl
    | bool b => rfl
    | num q => rfl
    | str s => rfl
    | ref o =>
      simp only [Part002.extractPriceDeepF]
      cases hl : lookupStore st o with
      | none => rfl
      | some data =>
        by_cases hv : o ∈ vis
        · simp [hv]
        · simp only [hv, if_false, ite_false]
          have ho := mem_storeDom_of_lookup st o data hl
          have hkey := fuelBound_insert st o vis ho hv
          rw [hb] at hkey
          have hm : Part002.fuelBound st (insert o vis) ≤ m := by omega
          have hn' : Part002.fuelBound st (insert o vis) ≤ (storeDom st \ vis).card := by omega
          have hcong : ∀ (v' : JVal) (w : Finset ℕ),
              Part002.fuelBound st w ≤ Part002.fuelBound st (insert o vis) →
              Part002.extractPriceDeepF st m v' w =
              Part002.extractPriceDeepF st (storeDom st \ vis).card v' w := by
            intro v' w hw
            rw [ih m (by omega) v' w (hw.trans hm),
              ih (storeDom st \ vis).card (by omega) v' w (hw.trans hn')]
          cases hp1 : Part002.priority1 (jfields data) with
          | some pr => simp [hp1]
          | none =>
            cases hp2 : Part002.priority2 (jfields data) with
            | some pr => simp [hp1, hp2]
            | none =>
              cases hdv : Part002.detectedValues st (jfields data) with
              | some elems =>
                simp only [hp1, hp2, hdv]
                have e3 := p3loop_congr st (Part002.fuelBound st (insert o vis))
                  (Part002.extractPriceDeepF st m)
                  (Part002.extractPriceDeepF st (storeDom st \ vis).card)
                  (extractPriceDeepF_vis_mono st m) hcong elems (insert o vis)
                  (le_refl _)
                rw [e3]
                have hsub := p3loop_vis_mono _
                  (extractPriceDeepF_vis_mono st (storeDom st \ vis).card) elems (insert o vis)
                have hb4 : Part002.fuelBound st
                    (Part002.p3loop (Part002.extractPriceDeepF st (storeDom st \ vis).card)
                      elems (insert o vis)).2 ≤ Part002.fuelBound st (insert o vis) :=
                  fuelBound_mono st _ _ hsub
                have e4 := p4loop_congr st (Part002.fuelBound st (insert o vis))
                  (Part002.extractPriceDeepF st m)
                  (Part002.extractPriceDeepF st (storeDom st \ vis).card)
                  (extractPriceDeepF_vis_mono st m) hcong (jfields data) _ hb4
                rw [e4]
              | none =>
                simp only [hp1, hp2, hdv]
                have e4 := p4loop_congr st (Part002.fuelBound st (insert o vis))
                  (Part002.extractPriceDeepF st m)
                  (Part002.extractPriceDeepF st (storeDom st \ vis).card)
                  (extractPriceDeepF_vis_mono st m) hcong (jfields data) (insert o vis)
                  (le_refl _)
                rw [e4]

/-- Claim C9: the recursive price extractor terminates on every input,
including cyclic stores — any fuel at least one plus the number of unvisited
objects yields the stable result — and an already-visited object immediately
yields the zero result with the visited set unchanged, rather than throwing
or recursing. -/
theorem claim_C9 :
    (∀ (st : Store) (fuel : ℕ) (v : JVal) (vis : Finset ℕ),
      Part002.fuelBound st vis ≤ fuel →
      Part002.extractPriceDeepF st fuel v vis =
      Part002.extractPriceDeepF st (Part002.fuelBound st vis) v vis) ∧
    (∀ (st : Store) (fuel : ℕ) (o : ℕ) (vis : Finset ℕ), o ∈ vis →
      Part002.extractPriceDeepF st fuel (.ref o) vis = (Part002.zeroPrice, vis)) := by
  constructor
  · exact fun st => extractPriceDeepF_stable st
  · intro st fuel o vis ho
    cases fuel with
    | zero => rfl
    | succ n =>
      simp only [Part002.extractPriceDeepF]
      cases lookupStore st o with
      | none => rfl
      | some data => simp [ho]

/-- Witness for C9 on a cyclic store: large fuel equals the canonical bound,
and a visited self-reference returns the zero result. -/
theorem claim_C9_witness :
    Part002.extractPriceDeepF wStoreCyclic 50 (.ref 0) ∅ =
      Part002.extractPriceDeepF wStoreCyclic (Part002.fuelBound wStoreCyclic ∅) (.ref 0) ∅ ∧
    Part002.extractPriceDeepF wStoreCyclic 7 (.ref 0) {0} = (Part002.zeroPrice, {0}) :=
  ⟨claim_C9.1 wStoreCyclic 50 (.ref 0) ∅ (by with_unfolding_all decide),
   claim_C9.2 wStoreCyclic 7 0 {0} (by decide)⟩

/-! ## Claim C5 — lemmas about the price-range parser on rendered strings -/

theorem isDigit_toNat (c : Char) (h : c.isDigit = true) :
    48 ≤ c.toNat ∧ c.toNat ≤ 57 := by
  simp [Char.isDigit] at h
  exact ⟨h.1, h.2⟩

theorem toLower_of_digit (c : Char) (h : c.isDigit = true) : c.toLower = c := by
  obtain ⟨h1, h2⟩ := isDigit_toNat c h
  unfold Char.toLower
  rw [if_neg]
  omega

theorem digit_beq_lower_false (c x : Char) (h : c.isDigit = true)
    (hx : x.toNat < 48 ∨ 57 < x.toNat) : (c.toLower == x) = false := by
  obtain ⟨h1, h2⟩ := isDigit_toNat c h
  rw [toLower_of_digit c h]
  rw [beq_eq_false_iff_ne]
  intro heq
  subst heq
  omega

theorem isSpaceJS_cases (c : Char) (h : isSpaceJS c = true) :
    c = ' ' ∨ c = '\t' ∨ c = '\r' ∨ c = '\n' := by
  simp [isSpaceJS, Char.isWhitespace] at h
  tauto

theorem digit_not_space (c : Char) (h : c.isDigit = true) : isSpaceJS c = false := by
  obtain ⟨h1, h2⟩ := isDigit_toNat c h
  have hne : ∀ x : Char, x.toNat < 48 ∨ 57 < x.toNat → c ≠ x := by
    intro x hx heq
    subst heq
    omega
  simp only [isSpaceJS, Char.isWhitespace]
  simp [hne ' ' (by decide), hne '\t' (by decide), hne '\r' (by decide),
    hne '\n' (by decide)]

theorem takeWhile_append_all {p : Char → Bool} :
    ∀ (a b : List Char), (∀ c ∈ a, p c = true) →
      (a ++ b).takeWhile p = a ++ b.takeWhile p := by
  intro a
  induction a with
  | nil => intro b _; rfl
  | cons c t ih =>
    intro b h
    simp only [List.cons_append, List.takeWhile_cons, h c (by simp), if_true]
    rw [ih b (fun x hx => h x (by simp [hx]))]

theorem dropWhile_append_all {p : Char → Bool} :
    ∀ (a b : List Char), (∀ c ∈ a, p c = true) →
      (a ++ b).dropWhile p = b.dropWhile p := by
  intro a
  induction a with
  | nil => intro b _; rfl
  | cons c t ih =>
    intro b h
    simp only [List.cons_append, List.dropWhile_cons, h c (by simp), if_true]
    exact ih b (fun x hx => h x (by simp [hx]))

theorem takeWhile_nil_of_head {p : Char → Bool} (l : List Char)
    (h : ∀ c, l.head? = some c → p c = false) : l.takeWhile p = [] := by
  cases l with
  | nil => rfl
  | cons c t => simp [List.takeWhile_cons, h c rfl]

theorem dropWhile_self_of_head {p : Char → Bool} (l : List Char)
    (h : ∀ c, l.head? = some c → p c = false) : l.dropWhile p = l := by
  cases l with
  | nil => rfl
  | cons c t => simp [List.dropWhile_cons, h c rfl]

theorem digit_beq_false (c x : Char) (h : c.isDigit = true)
    (hx : x.toNat < 48 ∨ 57 < x.toNat) : (c == x) = false := by
  obtain ⟨h1, h2⟩ := isDigit_toNat c h
  rw [beq_eq_false_iff_ne]
  intro heq
  subst heq
  omega

theorem matchLit_head_false (c : Char) (t : List Char) (d : Char) (p : List Char)
    (h : (c.toLower == d.toLower) = false) : matchLit (c :: t) (d :: p) = none := by
  simp [matchLit, h]

theorem head_no_marker (c : Char) (hc : isSpaceJS c = true ∨ c.isDigit = true) :
    (c.toLower == '₹'.toLower) = false ∧ (c.toLower == 'r'.toLower) = false ∧
    (c.toLower == 'i'.toLower) = false ∧ (c == '.') = false := by
  rcases hc with hsp | hd
  · rcases isSpaceJS_cases c hsp with rfl | rfl | rfl | rfl <;>
      exact ⟨by decide, by decide, by decide, by decide⟩
  · exact ⟨digit_beq_lower_false c _ hd (by decide),
      digit_beq_lower_false c _ hd (by decide),
      digit_beq_lower_false c _ hd (by decide),
      digit_beq_false c _ hd (by decide)⟩

theorem dropSpaces_spacesRun (k : ℕ) (r : List Char) :
    dropSpaces (spacesRun k ++ r) = dropSpaces r := by
  unfold dropSpaces spacesRun
  exact dropWhile_append_all _ _ (fun c hc => by
    rw [List.eq_of_mem_replicate hc]; decide)

theorem dropSpaces_id_of_head (r : List Char)
    (h : ∀ c, r.head? = some c → isSpaceJS c = false) : dropSpaces r = r :=
  dropWhile_self_of_head r h

/-- The optional marker consumes exactly the rendered marker when the rest of
the string starts with whitespace or a digit (or is empty). -/
theorem markerP2_render (m : Option PMarker) (r : List Char)
    (hr : ∀ c, r.head? = some c → isSpaceJS c = true ∨ c.isDigit = true) :
    Part002.markerP2 (renderMarker m ++ r) = r := by
  cases m with
  | none =>
    show Part002.markerP2 r = r
    cases r with
    | nil => rfl
    | cons c t =>
      obtain ⟨h1, h2, h3, -⟩ := head_no_marker c (hr c rfl)
      unfold Part002.markerP2
      rw [matchLit_head_false c t '₹' [] h1, matchLit_head_false c t 'r' ['s'] h2,
        matchLit_head_false c t 'i' ['n', 'r'] h3]
  | some mk =>
    cases mk with
    | rupee =>
      show Part002.markerP2 ('₹' :: r) = r
      unfold Part002.markerP2
      simp [matchLit]
    | rs =>
      show Part002.markerP2 ('R' :: 's' :: r) = r
      unfold Part002.markerP2
      rw [matchLit_head_false 'R' ('s' :: r) '₹' [] (by decide)]
      simp only [matchLit, show (('R'.toLower == 'r'.toLower)) = true by decide,
        show (('s'.toLower == 's'.toLower)) = true by decide, if_true]
      cases r with
      | nil => rfl
      | cons c t =>
        obtain ⟨-, -, -, h4⟩ := head_no_marker c (hr c rfl)
        simp [h4]
    | rsDot =>
      show Part002.markerP2 ('R' :: 's' :: '.' :: r) = r
      unfold Part002.markerP2
      rw [matchLit_head_false 'R' ('s' :: '.' :: r) '₹' [] (by decide)]
      simp only [matchLit, show (('R'.toLower == 'r'.toLower)) = true by decide,
        show (('s'.toLower == 's'.toLower)) = true by decide, if_true]
      simp
    | inr =>
      show Part002.markerP2 ('I' :: 'N' :: 'R' :: r) = r
      unfold Part002.markerP2
      rw [matchLit_head_false 'I' ('N' :: 'R' :: r) '₹' [] (by decide),
        matchLit_head_false 'I' ('N' :: 'R' :: r) 'r' ['s'] (by decide)]
      simp [matchLit]

/-- The thousands-separator star consumes exactly the rendered separator
groups when the terminator is neither a digit nor a comma. -/
theorem chunksGo_render :
    ∀ (gs : List (List Char)) (r2 : List Char) (fuel : ℕ),
      (∀ g ∈ gs, g ≠ [] ∧ g.all Char.isDigit = true) →
      (∀ c, r2.head? = some c → c.isDigit = false ∧ (c == ',') = false) →
      ((gs.map (fun g => ',' :: g)).flatten ++ r2).length ≤ fuel →
      Part002.chunksGo fuel ((gs.map (fun g => ',' :: g)).flatten ++ r2) =
        ((gs.map (fun g => ',' :: g)).flatten, r2) := by
  intro gs
  induction gs with
  | nil =>
    intro r2 fuel _ hr2 hfuel
    simp only [List.map_nil, List.flatten_nil, List.nil_append]
    cases fuel with
    | zero => rfl
    | succ n =>
      cases r2 with
      | nil => rfl
      | cons c t =>
        cases t with
        | nil => rfl
        | cons c2 t2 =>
          have hc := hr2 c rfl
          simp [Part002.chunksGo, hc.2]
  | cons g gs ih =>
    intro r2 fuel hgs hr2 hfuel
    obtain ⟨hgne, hgdig⟩ := hgs g (by simp)
    obtain ⟨c2, g', rfl⟩ : ∃ c2 g', g = c2 :: g' := by
      cases g with
      | nil => exact absurd rfl hgne
      | cons a b => exact ⟨a, b, rfl⟩
    have hc2 : c2.isDigit = true := by
      simp [List.all_cons] at hgdig
      exact hgdig.1
    have hg'dig : ∀ c ∈ g', c.isDigit = true := by
      simp [List.all_cons, List.all_eq_true] at hgdig
      exact fun c hc => hgdig.2 c hc
    cases fuel with
    | zero =>
      exfalso
      simp [List.length_append] at hfuel
    | succ n =>
      have hheadtail : ∀ c, ((gs.map (fun g => ',' :: g)).flatten ++ r2).head? = some c →
          Char.isDigit c = false := by
        intro c hc
        cases gs with
        | nil =>
          simp only [List.map_nil, List.flatten_nil, List.nil_append] at hc
          exact (hr2 c hc).1
        | cons g2 gs2 =>
          simp only [List.map_cons, List.flatten_cons, List.cons_append,
            List.head?_cons, Option.some.injEq] at hc
          subst hc
          decide
      have htw : ((c2 :: g') ++ ((gs.map (fun g => ',' :: g)).flatten ++ r2)).takeWhile
          Char.isDigit = c2 :: g' := by
        rw [takeWhile_append_all (c2 :: g') _ (by
          intro c hcm
          rcases List.mem_cons.mp hcm with rfl | hcm
          · exact hc2
          · exact hg'dig c hcm)]
        rw [takeWhile_nil_of_head _ hheadtail, List.append_nil]
      have hdw : ((c2 :: g') ++ ((gs.map (fun g => ',' :: g)).flatten ++ r2)).dropWhile
          Char.isDigit = (gs.map (fun g => ',' :: g)).flatten ++ r2 := by
        rw [dropWhile_append_all (c2 :: g') _ (by
          intro c hcm
          rcases List.mem_cons.mp hcm with rfl | hcm
          · exact hc2
          · exact hg'dig c hcm)]
        exact dropWhile_self_of_head _ (fun c hc => by rw [hheadtail c hc])
      have hrec := ih r2 n (fun g hg => hgs g (by simp [hg])) hr2 (by
        simp only [List.map_cons, List.flatten_cons, List.length_append,
          List.length_cons] at hfuel ⊢
        omega)
      simp only [List.cons_append] at htw hdw
      simp only [List.map_cons, List.flatten_cons, List.cons_append, List.append_assoc]
      simp only [Part002.chunksGo, List.cons_append]
      rw [if_pos (by simp [hc2])]
      simp only [htw, hdw, hrec]
      simp

/-- The decimal part (or the terminator) never starts with a digit or a
comma. -/
theorem renderDec_append_head (dec : Option (Char × Char)) (r : List Char)
    (hr : ∀ c, r.head? = some c → c.isDigit = false ∧ (c == ',') = false ∧ (c == '.') = false) :
    ∀ c, (renderDec dec ++ r).head? = some c →
      c.isDigit = false ∧ (c == ',') = false := by
  cases dec with
  | none =>
    intro c hc
    simp only [renderDec, List.nil_append] at hc
    exact ⟨(hr c hc).1, (hr c hc).2.1⟩
  | some ab =>
    obtain ⟨a, b⟩ := ab
    intro c hc
    simp only [renderDec, List.cons_append, List.head?_cons, Option.some.injEq] at hc
    subst hc
    decide

/-- After the leading digit group, the string never continues with a digit. -/
theorem flatten_append_head (gs : List (List Char)) (t : List Char)
    (ht : ∀ c, t.head? = some c → c.isDigit = false ∧ (c == ',') = false) :
    ∀ c, ((gs.map (fun g => ',' :: g)).flatten ++ t).head? = some c → c.isDigit = false := by
  cases gs with
  | nil =>
    intro c hc
    simp only [List.map_nil, List.flatten_nil, List.nil_append] at hc
    exact (ht c hc).1
  | cons g gs2 =>
    intro c hc
    simp only [List.map_cons, List.flatten_cons, List.cons_append, List.head?_cons,
      Option.some.injEq] at hc
    subst hc
    decide

/-- The numeral matcher consumes exactly a well-formed rendered numeral when
the terminator starts with no digit, comma or dot. -/
theorem matchNum_render (g0 : List Char) (gs : List (List Char)) (dec : Option (Char × Char))
    (r : List Char) (hwf : wfNumB g0 gs dec = true)
    (hr : ∀ c, r.head? = some c → c.isDigit = false ∧ (c == ',') = false ∧ (c == '.') = false) :
    Part002.matchNum (renderNum g0 gs dec ++ r) = some (renderNum g0 gs dec, r) := by
  have hr2 := renderDec_append_head dec r hr
  have hwf' := hwf
  simp only [wfNumB, Bool.and_eq_true] at hwf'
  obtain ⟨⟨⟨hg0e, hg0d⟩, hgsd⟩, hdec⟩ := hwf'
  have hg0e' : g0.isEmpty = false := by
    cases hge : g0.isEmpty with
    | false => rfl
    | true => rw [hge] at hg0e; exact absurd hg0e (by decide)
  have hg0dig : ∀ c ∈ g0, c.isDigit = true := by
    intro c hc
    rw [List.all_eq_true] at hg0d
    exact hg0d c hc
  have hgs2 : ∀ g ∈ gs, g ≠ [] ∧ g.all Char.isDigit = true := by
    intro g hg
    rw [List.all_eq_true] at hgsd
    have hgg := hgsd g hg
    rw [Bool.and_eq_true] at hgg
    obtain ⟨hne, hdig⟩ := hgg
    refine ⟨?_, hdig⟩
    intro he
    subst he
    simp at hne
  have hF : renderNum g0 gs dec ++ r =
      g0 ++ ((gs.map (fun g => ',' :: g)).flatten ++ (renderDec dec ++ r)) := by
    simp [renderNum, renderGroups, List.append_assoc]
  have hheadF := flatten_append_head gs (renderDec dec ++ r) hr2
  have htw : (renderNum g0 gs dec ++ r).takeWhile Char.isDigit = g0 := by
    rw [hF, takeWhile_append_all g0 _ hg0dig, takeWhile_nil_of_head _ hheadF, List.append_nil]
  have hdw : (renderNum g0 gs dec ++ r).dropWhile Char.isDigit =
      (gs.map (fun g => ',' :: g)).flatten ++ (renderDec dec ++ r) := by
    rw [hF, dropWhile_append_all g0 _ hg0dig, dropWhile_self_of_head _ hheadF]
  have hch : Part002.chunks ((gs.map (fun g => ',' :: g)).flatten ++ (renderDec dec ++ r)) =
      ((gs.map (fun g => ',' :: g)).flatten, renderDec dec ++ r) := by
    unfold Part002.chunks
    exact chunksGo_render gs (renderDec dec ++ r) _ hgs2 hr2 le_rfl
  simp only [Part002.matchNum, htw, hdw, hch, hg0e', Bool.false_eq_true, if_false]
  cases dec with
  | some ab =>
    obtain ⟨a, b⟩ := ab
    simp only at hdec
    rw [Bool.and_eq_true] at hdec
    obtain ⟨ha, hb⟩ := hdec
    simp only [renderDec, List.cons_append]
    rw [if_pos (by simp [ha, hb])]
    simp [renderNum, renderGroups, renderDec, List.append_assoc]
  | none =>
    simp only [renderDec, List.nil_append]
    match r, hr with
    | [], _ => simp [renderNum, renderGroups, renderDec]
    | [c0], _ => simp [renderNum, renderGroups, renderDec]
    | [c0, a], _ => simp [renderNum, renderGroups, renderDec]
    | c0 :: a :: b :: r'', hr =>
      have hc0 := (hr c0 rfl).2.2
      simp [hc0, renderNum, renderGroups, renderDec]

/-- Unpacked well-formedness of a rendered numeral. -/
theorem wfNumB_parts (g0 : List Char) (gs : List (List Char)) (dec : Option (Char × Char))
    (hwf : wfNumB g0 gs dec = true) :
    g0.isEmpty = false ∧ (∀ c ∈ g0, c.isDigit = true) ∧
      (∀ g ∈ gs, g ≠ [] ∧ g.all Char.isDigit = true) := by
  simp only [wfNumB, Bool.and_eq_true] at hwf
  obtain ⟨⟨⟨hg0e, hg0d⟩, hgsd⟩, -⟩ := hwf
  refine ⟨?_, ?_, ?_⟩
  · cases hge : g0.isEmpty with
    | false => rfl
    | true => rw [hge] at hg0e; exact absurd hg0e (by decide)
  · intro c hc
    rw [List.all_eq_true] at hg0d
    exact hg0d c hc
  · intro g hg
    rw [List.all_eq_true] at hgsd
    have hgg := hgsd g hg
    rw [Bool.and_eq_true] at hgg
    obtain ⟨hne, hdig⟩ := hgg
    refine ⟨?_, hdig⟩
    intro he
    subst he
    simp at hne

/-- A rendered numeral (with anything appended) starts with a digit. -/
theorem renderNum_head_digit (g0 : List Char) (gs : List (List Char))
    (dec : Option (Char × Char)) (r : List Char) (hg0 : g0.isEmpty = false)
    (hg0d : ∀ c ∈ g0, c.isDigit = true) :
    ∀ c, (renderNum g0 gs dec ++ r).head? = some c → c.isDigit = true := by
  cases g0 with
  | nil => simp at hg0
  | cons d t =>
    intro c hc
    simp only [renderNum, renderGroups, List.cons_append, List.append_assoc,
      List.head?_cons, Option.some.injEq] at hc
    exact hc ▸ hg0d d (by simp)

/-- A space run followed by a rendered numeral starts with a space or a
digit. -/
theorem spaces_num_head (k : ℕ) (g0 : List Char) (gs : List (List Char))
    (dec : Option (Char × Char)) (r : List Char) (hg0 : g0.isEmpty = false)
    (hg0d : ∀ c ∈ g0, c.isDigit = true) :
    ∀ c, (spacesRun k ++ (renderNum g0 gs dec ++ r)).head? = some c →
      isSpaceJS c = true ∨ c.isDigit = true := by
  cases k with
  | zero =>
    intro c hc
    simp only [spacesRun, List.replicate, List.nil_append] at hc
    exact Or.inr (renderNum_head_digit g0 gs dec r hg0 hg0d c hc)
  | succ n =>
    intro c hc
    simp only [spacesRun, List.replicate, List.cons_append, List.head?_cons,
      Option.some.injEq] at hc
    subst hc
    exact Or.inl (by decide)

/-- A rendered marker (with anything appended) never starts with a space. -/
theorem marker_head_not_space (mk : PMarker) (X : List Char) :
    ∀ c, (renderMarker (some mk) ++ X).head? = some c → isSpaceJS c = false := by
  cases mk <;>
    (intro c hc
     simp only [renderMarker, List.cons_append, List.head?_cons, Option.some.injEq] at hc
     subst hc
     decide)

/-- After the dash, the tail of the range regex consumes exactly the second
rendered numeral. -/
theorem tailMatch_render (k3 : ℕ) (m2 : Option PMarker) (k4 : ℕ) (g0' : List Char)
    (gs' : List (List Char)) (dec' : Option (Char × Char))
    (hwf2 : wfNumB g0' gs' dec' = true) :
    Part002.matchNum (dropSpaces (Part002.markerP2
        (dropSpaces (spacesRun k3 ++ (renderMarker m2 ++ (spacesRun k4 ++ renderNum g0' gs' dec')))))) =
      some (renderNum g0' gs' dec', []) := by
  obtain ⟨hg0e, hg0d, -⟩ := wfNumB_parts g0' gs' dec' hwf2
  have hnumhead : ∀ c, (renderNum g0' gs' dec').head? = some c → c.isDigit = true := by
    have h := renderNum_head_digit g0' gs' dec' [] hg0e hg0d
    rwa [List.append_nil] at h
  have hnumdrop : dropSpaces (renderNum g0' gs' dec') = renderNum g0' gs' dec' :=
    dropSpaces_id_of_head _ (fun c hc => digit_not_space c (hnumhead c hc))
  have hmn : Part002.matchNum (renderNum g0' gs' dec') = some (renderNum g0' gs' dec', []) := by
    have h := matchNum_render g0' gs' dec' [] hwf2 (by intro c hc; simp at hc)
    rwa [List.append_nil] at h
  rw [dropSpaces_spacesRun]
  cases m2 with
  | none =>
    simp only [renderMarker, List.nil_append]
    rw [dropSpaces_spacesRun, hnumdrop]
    have hmk := markerP2_render none (renderNum g0' gs' dec')
      (fun c hc => Or.inr (hnumhead c hc))
    simp only [renderMarker, List.nil_append] at hmk
    rw [hmk, hnumdrop, hmn]
  | some mk =>
    rw [dropSpaces_id_of_head _ (marker_head_not_space mk _)]
    have hsn := spaces_num_head k4 g0' gs' dec' [] hg0e hg0d
    rw [List.append_nil] at hsn
    rw [markerP2_render (some mk) _ hsn]
    rw [dropSpaces_spacesRun, hnumdrop, hmn]

/-- One anchored attempt of the range regex succeeds on a rendered range
string and captures exactly the two rendered numerals. -/
theorem rangeAtP2_render (m1 : Option PMarker) (k1 : ℕ) (g0 : List Char) (gs : List (List Char))
    (dec : Option (Char × Char)) (k2 : ℕ) (d : Char) (k3 : ℕ) (m2 : Option PMarker) (k4 : ℕ)
    (g0' : List Char) (gs' : List (List Char)) (dec' : Option (Char × Char))
    (hwf1 : wfNumB g0 gs dec = true) (hwf2 : wfNumB g0' gs' dec' = true)
    (hd : Part002.dashP2 d = true) :
    Part002.rangeAtP2 (renderRange m1 k1 g0 gs dec k2 d k3 m2 k4 g0' gs' dec') =
      some (renderNum g0 gs dec, renderNum g0' gs' dec') := by
  obtain ⟨hg0e, hg0d, -⟩ := wfNumB_parts g0 gs dec hwf1
  have hdprops : d.isDigit = false ∧ (d == ',') = false ∧ (d == '.') = false ∧
      isSpaceJS d = false := by
    have hd2 := hd
    simp only [Part002.dashP2, Bool.or_eq_true, beq_iff_eq] at hd2
    rcases hd2 with rfl | rfl <;> exact ⟨by decide, by decide, by decide, by decide⟩
  have hshape : renderRange m1 k1 g0 gs dec k2 d k3 m2 k4 g0' gs' dec' =
      renderMarker m1 ++ (spacesRun k1 ++ (renderNum g0 gs dec ++
        (spacesRun k2 ++ ([d] ++ (spacesRun k3 ++ (renderMarker m2 ++
          (spacesRun k4 ++ renderNum g0' gs' dec'))))))) := by
    simp [renderRange, List.append_assoc]
  have hm1 := markerP2_render m1 (spacesRun k1 ++ (renderNum g0 gs dec ++
      (spacesRun k2 ++ ([d] ++ (spacesRun k3 ++ (renderMarker m2 ++
        (spacesRun k4 ++ renderNum g0' gs' dec')))))))
    (spaces_num_head k1 g0 gs dec _ hg0e hg0d)
  have hds1 : dropSpaces (spacesRun k1 ++ (renderNum g0 gs dec ++
      (spacesRun k2 ++ ([d] ++ (spacesRun k3 ++ (renderMarker m2 ++
        (spacesRun k4 ++ renderNum g0' gs' dec'))))))) =
      renderNum g0 gs dec ++ (spacesRun k2 ++ ([d] ++ (spacesRun k3 ++ (renderMarker m2 ++
        (spacesRun k4 ++ renderNum g0' gs' dec'))))) := by
    rw [dropSpaces_spacesRun]
    exact dropSpaces_id_of_head _ (fun c hc =>
      digit_not_space c (renderNum_head_digit g0 gs dec _ hg0e hg0d c hc))
  have hThead : ∀ c, (spacesRun k2 ++ ([d] ++ (spacesRun k3 ++ (renderMarker m2 ++
      (spacesRun k4 ++ renderNum g0' gs' dec'))))).head? = some c →
      c.isDigit = false ∧ (c == ',') = false ∧ (c == '.') = false := by
    cases k2 with
    | zero =>
      intro c hc
      simp only [spacesRun, List.replicate, List.nil_append, List.cons_append,
        List.head?_cons, Option.some.injEq] at hc
      exact hc ▸ ⟨hdprops.1, hdprops.2.1, hdprops.2.2.1⟩
    | succ n =>
      intro c hc
      simp only [spacesRun, List.replicate, List.cons_append, List.head?_cons,
        Option.some.injEq] at hc
      exact hc ▸ ⟨by decide, by decide, by decide⟩
  have hmn1 := matchNum_render g0 gs dec _ hwf1 hThead
  have hdropT : dropSpaces (spacesRun k2 ++ ([d] ++ (spacesRun k3 ++ (renderMarker m2 ++
      (spacesRun k4 ++ renderNum g0' gs' dec'))))) =
      d :: (spacesRun k3 ++ (renderMarker m2 ++ (spacesRun k4 ++ renderNum g0' gs' dec'))) := by
    rw [dropSpaces_spacesRun]
    exact dropSpaces_id_of_head _ (by
      intro c hc
      simp only [List.cons_append, List.nil_append, List.head?_cons, Option.some.injEq] at hc
      exact hc ▸ hdprops.2.2.2)
  have htail := tailMatch_render k3 m2 k4 g0' gs' dec' hwf2
  rw [hshape]
  simp only [Part002.rangeAtP2, hm1, hds1, hmn1, hdropT, hd, htail, if_true]

/-- The decimal digits of a well-formed rendered numeral. -/
theorem wfNumB_dec (g0 : List Char) (gs : List (List Char)) (a b : Char)
    (hwf : wfNumB g0 gs (some (a, b)) = true) : a.isDigit = true ∧ b.isDigit = true := by
  simp only [wfNumB, Bool.and_eq_true] at hwf
  obtain ⟨-, hdec⟩ := hwf
  exact hdec

/-- Every character of a well-formed rendered numeral is a digit, a comma or
a dot. -/
theorem renderNum_mem (g0 : List Char) (gs : List (List Char)) (dec : Option (Char × Char))
    (hwf : wfNumB g0 gs dec = true) :
    ∀ c ∈ renderNum g0 gs dec, c.isDigit = true ∨ c = ',' ∨ c = '.' := by
  obtain ⟨-, hg0d, hgs⟩ := wfNumB_parts g0 gs dec hwf
  intro c hc
  simp only [renderNum, renderGroups, List.mem_append, List.mem_flatten, List.mem_map] at hc
  rcases hc with (hc | ⟨l, ⟨g, hg, rfl⟩, hcl⟩) | hc
  · exact Or.inl (hg0d c hc)
  · rcases List.mem_cons.mp hcl with rfl | hcg
    · exact Or.inr (Or.inl rfl)
    · have hga := (hgs g hg).2
      rw [List.all_eq_true] at hga
      exact Or.inl (hga c hcg)
  · cases dec with
    | none => simp [renderDec] at hc
    | some ab =>
      obtain ⟨a, b⟩ := ab
      obtain ⟨ha, hb⟩ := wfNumB_dec g0 gs a b hwf
      simp only [renderDec, List.mem_cons, List.not_mem_nil, or_false] at hc
      rcases hc with rfl | rfl | rfl
      · exact Or.inr (Or.inr rfl)
      · exact Or.inl ha
      · exact Or.inl hb

/-- No character of a well-formed rendered numeral is whitespace. -/
theorem renderNum_not_space (g0 : List Char) (gs : List (List Char))
    (dec : Option (Char × Char)) (hwf : wfNumB g0 gs dec = true) :
    ∀ c ∈ renderNum g0 gs dec, isSpaceJS c = false := by
  intro c hc
  rcases renderNum_mem g0 gs dec hwf c hc with h | rfl | rfl
  · exact digit_not_space c h
  · decide
  · decide

/-- Trimming drops a leading space run. -/
theorem trimJS_spacesRun (k : ℕ) (l : List Char) : trimJS (spacesRun k ++ l) = trimJS l := by
  unfold trimJS
  have h := dropSpaces_spacesRun k l
  unfold dropSpaces at h
  rw [h]

/-- Trimming is the identity on a string that starts with a non-space and
ends with a well-formed rendered numeral. -/
theorem trimJS_append_num (L : List Char) (g0 : List Char) (gs : List (List Char))
    (dec : Option (Char × Char)) (hwf : wfNumB g0 gs dec = true)
    (hL : ∀ c, (L ++ renderNum g0 gs dec).head? = some c → isSpaceJS c = false) :
    trimJS (L ++ renderNum g0 gs dec) = L ++ renderNum g0 gs dec := by
  obtain ⟨hg0e, -, -⟩ := wfNumB_parts g0 gs dec hwf
  have hne : renderNum g0 gs dec ≠ [] := by
    cases g0 with
    | nil => simp at hg0e
    | cons d t => simp [renderNum, renderGroups]
  unfold trimJS
  rw [dropWhile_self_of_head _ hL]
  have hlast : ∀ c, (L ++ renderNum g0 gs dec).reverse.head? = some c →
      isSpaceJS c = false := by
    intro c hc
    rw [List.head?_reverse, List.getLast?_append_of_ne_nil L hne] at hc
    exact renderNum_not_space g0 gs dec hwf c (List.mem_of_getLast?_eq_some hc)
  rw [dropWhile_self_of_head _ hlast, List.reverse_reverse]

/-- If the scanner's pattern already fires at the start, the leftmost search
returns that result. -/
theorem findLeftmost_of_some {α : Type} (p : List Char → Option α) (l : List Char) (x : α)
    (h : p l = some x) : findLeftmost p l = some x := by
  cases l with
  | nil => exact h
  | cons c t => simp only [findLeftmost, h]

/-- The out-of-stock test fails on any string with no `o`, `u` or `d`
character (case-insensitively): each alternative's first letter never
matches. -/
theorem oosTestP2_false_of_chars : ∀ (l : List Char),
    (∀ c ∈ l, (c.toLower == 'o') = false ∧ (c.toLower == 'u') = false ∧
      (c.toLower == 'd') = false) →
    Part002.oosTestP2 l = false := by
  intro l
  induction l with
  | nil => intro _; rfl
  | cons c t ih =>
    intro h
    obtain ⟨h1, h2, h3⟩ := h c (by simp)
    have ht := ih (fun x hx => h x (by simp [hx]))
    simp only [Part002.oosTestP2, anyPos] at ht ⊢
    rw [ht, Bool.or_false]
    have ho : ('o'.toLower) = 'o' := by decide
    have hu : ('u'.toLower) = 'u' := by decide
    have hd : ('d'.toLower) = 'd' := by decide
    simp [matchPhrase, matchPhraseR, matchLit, ho, hu, hd, h1, h2, h3]

/-- Every character of a rendered range string misses the alphabet of the
out-of-stock phrases. -/
theorem renderRange_chars (m1 : Option PMarker) (k1 : ℕ) (g0 : List Char)
    (gs : List (List Char)) (dec : Option (Char × Char)) (k2 : ℕ) (d : Char) (k3 : ℕ)
    (m2 : Option PMarker) (k4 : ℕ) (g0' : List Char) (gs' : List (List Char))
    (dec' : Option (Char × Char)) (hwf1 : wfNumB g0 gs dec = true)
    (hwf2 : wfNumB g0' gs' dec' = true) (hd : Part002.dashP2 d = true) :
    ∀ c ∈ renderRange m1 k1 g0 gs dec k2 d k3 m2 k4 g0' gs' dec',
      (c.toLower == 'o') = false ∧ (c.toLower == 'u') = false ∧
        (c.toLower == 'd') = false := by
  have hmk : ∀ (m : Option PMarker), ∀ c ∈ renderMarker m,
      (c.toLower == 'o') = false ∧ (c.toLower == 'u') = false ∧
        (c.toLower == 'd') = false := by
    intro m c hc
    cases m with
    | none => simp [renderMarker] at hc
    | some mk =>
      cases mk <;> (simp [renderMarker] at hc) <;>
        (rcases hc with rfl | rfl | rfl <;> exact ⟨by decide, by decide, by decide⟩)
  have hsp : ∀ (k : ℕ), ∀ c ∈ spacesRun k,
      (c.toLower == 'o') = false ∧ (c.toLower == 'u') = false ∧
        (c.toLower == 'd') = false := by
    intro k c hc
    rw [List.eq_of_mem_replicate hc]
    exact ⟨by decide, by decide, by decide⟩
  have hnum : ∀ (g0a : List Char) (gsa : List (List Char)) (deca : Option (Char × Char)),
      wfNumB g0a gsa deca = true → ∀ c ∈ renderNum g0a gsa deca,
      (c.toLower == 'o') = false ∧ (c.toLower == 'u') = false ∧
        (c.toLower == 'd') = false := by
    intro g0a gsa deca hwf c hc
    rcases renderNum_mem g0a gsa deca hwf c hc with h | rfl | rfl
    · exact ⟨digit_beq_lower_false c 'o' h (by decide),
        digit_beq_lower_false c 'u' h (by decide),
        digit_beq_lower_false c 'd' h (by decide)⟩
    · exact ⟨by decide, by decide, by decide⟩
    · exact ⟨by decide, by decide, by decide⟩
  intro c hc
  simp only [renderRange, List.append_assoc, List.mem_append, List.mem_singleton] at hc
  rcases hc with hc | hc | hc | hc | rfl | hc | hc | hc | hc
  · exact hmk m1 c hc
  · exact hsp k1 c hc
  · exact hnum g0 gs dec hwf1 c hc
  · exact hsp k2 c hc
  · have hd2 := hd
    simp only [Part002.dashP2, Bool.or_eq_true, beq_iff_eq] at hd2
    rcases hd2 with rfl | rfl <;> exact ⟨by decide, by decide, by decide⟩
  · exact hsp k3 c hc
  · exact hmk m2 c hc
  · exact hsp k4 c hc
  · exact hnum g0' gs' dec' hwf2 c hc

/-- Comma stripping distributes over append. -/
theorem stripCommas_append (a b : List Char) :
    stripCommas (a ++ b) = stripCommas a ++ stripCommas b := by
  unfold stripCommas
  exact List.filter_append _ _

/-- Comma stripping is the identity on digit strings. -/
theorem stripCommas_digits (l : List Char) (h : ∀ c ∈ l, c.isDigit = true) :
    stripCommas l = l := by
  unfold stripCommas
  apply List.filter_eq_self.mpr
  intro c hc
  rw [bne_iff_ne]
  intro he
  subst he
  exact absurd (h ',' hc) (by decide)

/-- Comma stripping turns the separated digit groups into their plain
concatenation. -/
theorem stripCommas_flatten (gs : List (List Char))
    (h : ∀ g ∈ gs, g.all Char.isDigit = true) :
    stripCommas ((gs.map (fun g => ',' :: g)).flatten) = gs.flatten := by
  induction gs with
  | nil => rfl
  | cons g gs2 ih =>
    have hg : ∀ c ∈ g, c.isDigit = true := by
      have hga := h g (by simp)
      rw [List.all_eq_true] at hga
      exact hga
    have h1 : List.filter (fun c => c != ',') (',' :: g) = g := by
      rw [List.filter_cons, if_neg (by decide)]
      have h2 := stripCommas_digits g hg
      unfold stripCommas at h2
      exact h2
    have h3 := ih (fun g2 hg2 => h g2 (by simp [hg2]))
    unfold stripCommas at h3 ⊢
    simp only [List.map_cons, List.flatten_cons, List.filter_append, h1, h3]

/-- `parseFloat` on a rendered numeral computes its denoted value. -/
theorem parseCapture_render (g0 : List Char) (gs : List (List Char))
    (dec : Option (Char × Char)) (hwf : wfNumB g0 gs dec = true) :
    parseCapture (renderNum g0 gs dec) = numVal g0 gs dec := by
  obtain ⟨hg0e, hg0d, hgs⟩ := wfNumB_parts g0 gs dec hwf
  have hflat : ∀ c ∈ g0 ++ gs.flatten, c.isDigit = true := by
    intro c hc
    rcases List.mem_append.mp hc with hc | hc
    · exact hg0d c hc
    · obtain ⟨g, hg, hcg⟩ := List.mem_flatten.mp hc
      have hga := (hgs g hg).2
      rw [List.all_eq_true] at hga
      exact hga c hcg
  have hdecstrip : stripCommas (renderDec dec) = renderDec dec := by
    cases dec with
    | none => rfl
    | some ab =>
      obtain ⟨a, b⟩ := ab
      obtain ⟨ha, hb⟩ := wfNumB_dec g0 gs a b hwf
      unfold stripCommas
      apply List.filter_eq_self.mpr
      intro c hc
      simp only [renderDec, List.mem_cons, List.not_mem_nil, or_false] at hc
      rcases hc with rfl | rfl | rfl
      · decide
      · rw [bne_iff_ne]
        intro he
        subst he
        exact absurd ha (by decide)
      · rw [bne_iff_ne]
        intro he
        subst he
        exact absurd hb (by decide)
  have hstrip : stripCommas (renderNum g0 gs dec) = (g0 ++ gs.flatten) ++ renderDec dec := by
    rw [show renderNum g0 gs dec =
      (g0 ++ (gs.map (fun g => ',' :: g)).flatten) ++ renderDec dec from rfl]
    rw [stripCommas_append, stripCommas_append, stripCommas_digits g0 hg0d,
      stripCommas_flatten gs (fun g hg => (hgs g hg).2), hdecstrip]
  have hall : ∀ c ∈ g0 ++ gs.flatten, (c != '.') = true := by
    intro c hc
    have hcd := hflat c hc
    rw [bne_iff_ne]
    intro he
    subst he
    exact absurd hcd (by decide)
  cases dec with
  | none =>
    simp only [renderDec, List.append_nil] at hstrip
    have htake : (g0 ++ gs.flatten).takeWhile (fun c => c != '.') = g0 ++ gs.flatten := by
      have h := takeWhile_append_all (p := fun c => c != '.') (g0 ++ gs.flatten) [] hall
      simpa using h
    have hdrop : (g0 ++ gs.flatten).dropWhile (fun c => c != '.') = [] := by
      have h := dropWhile_append_all (p := fun c => c != '.') (g0 ++ gs.flatten) [] hall
      simpa using h
    simp only [parseCapture, hstrip, htake, hdrop, numVal]
  | some ab =>
    obtain ⟨a, b⟩ := ab
    have htake : ((g0 ++ gs.flatten) ++ renderDec (some (a, b))).takeWhile
        (fun c => c != '.') = g0 ++ gs.flatten := by
      rw [takeWhile_append_all (g0 ++ gs.flatten) _ hall,
        takeWhile_nil_of_head _ (by
          intro c hc
          simp only [renderDec, List.head?_cons, Option.some.injEq] at hc
          exact hc ▸ (by decide)), List.append_nil]
    have hdrop : ((g0 ++ gs.flatten) ++ renderDec (some (a, b))).dropWhile
        (fun c => c != '.') = '.' :: a :: b :: [] := by
      rw [dropWhile_append_all (g0 ++ gs.flatten) _ hall,
        dropWhile_self_of_head _ (by
          intro c hc
          simp only [renderDec, List.head?_cons, Option.some.injEq] at hc
          exact hc ▸ (by decide))]
      rfl
    simp only [parseCapture, hstrip, htake, hdrop, numVal]
    norm_num

/-- C5: for every rendered price-range string `X-Y` — optional `₹`/`Rs`/`Rs.`/
`INR` markers, optional whitespace, thousands separators and two-digit
decimals — whose first numeral denotes a positive value, the string-price
parser returns `min = round X` and `max = round Y` with separators and
markers stripped; and on any string whose trimmed form matches the
out-of-stock phrasing it returns `min = max = 0`.  (The positivity of `X` is
required: the source accepts a range match only when the parsed minimum is
positive, so `X = 0` falls through to the single-price fallback.) -/
theorem claim_C5 (m1 : Option PMarker) (k1 : ℕ) (g0 : List Char) (gs : List (List Char))
    (dec : Option (Char × Char)) (k2 : ℕ) (d : Char) (k3 : ℕ) (m2 : Option PMarker) (k4 : ℕ)
    (g0' : List Char) (gs' : List (List Char)) (dec' : Option (Char × Char))
    (hwf1 : wfNumB g0 gs dec = true) (hwf2 : wfNumB g0' gs' dec' = true)
    (hd : Part002.dashP2 d = true) (hpos : 0 < numVal g0 gs dec) :
    Part002.cleanAndParsePriceString
        (String.mk (renderRange m1 k1 g0 gs dec k2 d k3 m2 k4 g0' gs' dec')) =
      ⟨jsRound (numVal g0 gs dec), jsRound (numVal g0' gs' dec')⟩ ∧
    ∀ s : String, Part002.oosTestP2 (trimJS s.toList) = true →
      Part002.cleanAndParsePriceString s = ⟨0, 0⟩ := by
  constructor
  · have hcore : ∀ (m1a : Option PMarker) (k1a : ℕ),
        trimJS (renderRange m1 k1 g0 gs dec k2 d k3 m2 k4 g0' gs' dec') =
          renderRange m1a k1a g0 gs dec k2 d k3 m2 k4 g0' gs' dec' →
        Part002.cleanAndParsePriceString
            (String.mk (renderRange m1 k1 g0 gs dec k2 d k3 m2 k4 g0' gs' dec')) =
          ⟨jsRound (numVal g0 gs dec), jsRound (numVal g0' gs' dec')⟩ := by
      intro m1a k1a hT
      have hoos : Part002.oosTestP2
          (renderRange m1a k1a g0 gs dec k2 d k3 m2 k4 g0' gs' dec') = false :=
        oosTestP2_false_of_chars _
          (renderRange_chars m1a k1a g0 gs dec k2 d k3 m2 k4 g0' gs' dec' hwf1 hwf2 hd)
      have hfl : findLeftmost Part002.rangeAtP2
          (renderRange m1a k1a g0 gs dec k2 d k3 m2 k4 g0' gs' dec') =
          some (renderNum g0 gs dec, renderNum g0' gs' dec') :=
        findLeftmost_of_some _ _ _
          (rangeAtP2_render m1a k1a g0 gs dec k2 d k3 m2 k4 g0' gs' dec' hwf1 hwf2 hd)
      have hpc1 := parseCapture_render g0 gs dec hwf1
      have hpc2 := parseCapture_render g0' gs' dec' hwf2
      have htoList : (String.mk
          (renderRange m1 k1 g0 gs dec k2 d k3 m2 k4 g0' gs' dec')).toList =
          renderRange m1 k1 g0 gs dec k2 d k3 m2 k4 g0' gs' dec' := rfl
      simp only [Part002.cleanAndParsePriceString, htoList, hT, hoos, Bool.false_eq_true,
        if_false, hfl, hpc1, hpc2]
      rw [if_pos hpos]
    cases m1 with
    | some mk =>
      apply hcore (some mk) k1
      have hform : renderRange (some mk) k1 g0 gs dec k2 d k3 m2 k4 g0' gs' dec' =
          (renderMarker (some mk) ++ spacesRun k1 ++ renderNum g0 gs dec ++ spacesRun k2 ++
            [d] ++ spacesRun k3 ++ renderMarker m2 ++ spacesRun k4) ++
            renderNum g0' gs' dec' := by
        simp [renderRange, List.append_assoc]
      rw [hform]
      apply trimJS_append_num _ g0' gs' dec' hwf2
      intro c hc
      rw [← hform] at hc
      have hshape2 : renderRange (some mk) k1 g0 gs dec k2 d k3 m2 k4 g0' gs' dec' =
          renderMarker (some mk) ++ (spacesRun k1 ++ (renderNum g0 gs dec ++ (spacesRun k2 ++
            ([d] ++ (spacesRun k3 ++ (renderMarker m2 ++
              (spacesRun k4 ++ renderNum g0' gs' dec'))))))) := by
        simp [renderRange, List.append_assoc]
      rw [hshape2] at hc
      exact marker_head_not_space mk _ c hc
    | none =>
      apply hcore none 0
      have hsplit : renderRange none k1 g0 gs dec k2 d k3 m2 k4 g0' gs' dec' =
          spacesRun k1 ++ renderRange none 0 g0 gs dec k2 d k3 m2 k4 g0' gs' dec' := by
        simp [renderRange, renderMarker, spacesRun, List.replicate_zero, List.append_assoc]
      rw [hsplit, trimJS_spacesRun]
      have hform : renderRange none 0 g0 gs dec k2 d k3 m2 k4 g0' gs' dec' =
          (renderMarker none ++ spacesRun 0 ++ renderNum g0 gs dec ++ spacesRun k2 ++ [d] ++
            spacesRun k3 ++ renderMarker m2 ++ spacesRun k4) ++ renderNum g0' gs' dec' := by
        simp [renderRange, List.append_assoc]
      rw [hform]
      apply trimJS_append_num _ g0' gs' dec' hwf2
      intro c hc
      rw [← hform] at hc
      obtain ⟨hg0e, hg0d, -⟩ := wfNumB_parts g0 gs dec hwf1
      have hshape2 : renderRange none 0 g0 gs dec k2 d k3 m2 k4 g0' gs' dec' =
          renderNum g0 gs dec ++ (spacesRun k2 ++ ([d] ++ (spacesRun k3 ++ (renderMarker m2 ++
            (spacesRun k4 ++ renderNum g0' gs' dec'))))) := by
        simp [renderRange, renderMarker, spacesRun, List.replicate_zero, List.append_assoc]
      rw [hshape2] at hc
      exact digit_not_space c (renderNum_head_digit g0 gs dec _ hg0e hg0d c hc)
  · intro s hoos
    rw [show s.toList = s.data from rfl] at hoos
    simp [Part002.cleanAndParsePriceString, hoos]

/-- C5 counterexample: `"0-5"` is a rendered range `X-Y` with
`X = 0 ≤ 5 = Y`, yet the parser returns `{min 0, max 0}` instead of the
claimed `{min 0, max 5}`: the source accepts a range match only when the
parsed minimum is positive, so `X = 0` falls through to the single-price
fallback, which also rejects `0`. -/
theorem claim_C5_counterexample :
    wfNumB ['0'] [] none = true ∧ wfNumB ['5'] [] none = true ∧
    Part002.dashP2 '-' = true ∧ numVal ['0'] [] none ≤ numVal ['5'] [] none ∧
    String.mk (renderRange none 0 ['0'] [] none 0 '-' 0 none 0 ['5'] [] none) = "0-5" ∧
    Part002.cleanAndParsePriceString "0-5" = ⟨0, 0⟩ ∧
    ¬(Part002.cleanAndParsePriceString "0-5" =
      ⟨jsRound (numVal ['0'] [] none), jsRound (numVal ['5'] [] none)⟩) := by
  refine ⟨by decide, by decide, by decide, by with_unfolding_all decide, by rfl,
    by with_unfolding_all rfl, by with_unfolding_all decide⟩

/-- C5 witness: the claim theorem applied to the rendered form of
`"₹1,499 - ₹1,999"`. -/
theorem claim_C5_witness :
    (wfNumB ['1'] [['4', '9', '9']] none = true ∧
      wfNumB ['1'] [['9', '9', '9']] none = true ∧
      Part002.dashP2 '-' = true ∧ 0 < numVal ['1'] [['4', '9', '9']] none) ∧
    Part002.cleanAndParsePriceString (String.mk (renderRange (some PMarker.rupee) 0 ['1']
        [['4', '9', '9']] none 1 '-' 1 (some PMarker.rupee) 0 ['1'] [['9', '9', '9']] none)) =
      ⟨jsRound (numVal ['1'] [['4', '9', '9']] none),
        jsRound (numVal ['1'] [['9', '9', '9']] none)⟩ :=
  ⟨⟨by decide, by decide, by decide, by with_unfolding_all decide⟩,
    (claim_C5 (some PMarker.rupee) 0 ['1'] [['4', '9', '9']] none 1 '-' 1
      (some PMarker.rupee) 0 ['1'] [['9', '9', '9']] none (by decide) (by decide) (by decide)
      (by with_unfolding_all decide)).1⟩
